import Mathlib

/-!
# The Android battery collector (`collector/android_linux.go`)

A shallow embedding of `androidCollector`: its constructor `NewAndroidCollector`,
`GetStats` (which decodes the text printed by `/system/bin/dumpsys battery`) and
`Update` (which pushes three gauge samples on the metrics channel).

Conventions of the embedding.

* A Go `string` is an immutable byte sequence.  It is modelled by a Lean `String`
  read one `Char` per byte.  The three regular expressions of `GetStats` mention
  ASCII characters only, so every byte above `0x7f` behaves as "some character that
  is neither a word character nor part of a literal".
* A Go function that can panic returns `Except Panic _`.
* The receiver of `Update` is a pointer.  `Process.Update` passes explicitly the state
  that the method can reach (the collector object, the package variable
  `androidLabelNames`, the channel); `androidCollector.Update` is the same method seen
  from a fixed collector, and `Process_Update_eq` relates the two.
* Go's `int` is the 64-bit signed integer (`strconv.IntSize = 64`); it is modelled
  by `Int`, and the unsigned accumulator of `strconv.ParseUint` by `Nat` with
  explicit reduction modulo `2 ^ 64`.
* A `float64` is modelled by its sign, integer significand and binary exponent;
  conversions and division round to nearest, ties to even.
* The command `exec.Command("/system/bin/dumpsys", "battery").Output()` is the
  environment: its result (captured bytes and error value) is an argument.
* The package constant `namespace` is declared in another file of the package; it is
  an argument of the constructor.
-/

namespace Collector

/-! ## Go runtime -/

/-- Run-time panics that the collector can raise. -/
inductive Panic where
  /-- The runtime error `index out of range [index] with length len`. -/
  | indexOutOfRange (index len : Nat)
  /-- The panic of `prometheus.MustNewConstMetric`, carrying the error text. -/
  | mustNewConstMetric (msg : String)
deriving DecidableEq, Repr

deriving instance DecidableEq for Except

/-- Indexing `xs[i]` of a Go slice: panics when `i` is not below `len(xs)`. -/
def index (xs : List String) (i : Nat) : Except Panic String :=
  match xs.get? i with
  | some x => .ok x
  | none => .error (.indexOutOfRange i xs.length)

/-! ## Package `regexp` -/

/-- The two Perl character classes used by the collector; both are ASCII-only in Go. -/
inductive PerlClass where
  /-- The class `\w`, that is `[0-9A-Za-z_]`. -/
  | word
  /-- The class `\d`, that is `[0-9]`. -/
  | digit
deriving DecidableEq, Repr

/-- Membership of a character in a Perl class. -/
def PerlClass.mem : PerlClass → Char → Bool
  | .word, c => c.isAlphanum || c == '_'
  | .digit, c => c.isDigit

/-- A compiled expression of the shape `literal(?P<name>class+)`: a literal text followed
by one named capture group holding a greedy, non-empty repetition of a Perl class.  All
three expressions of `GetStats` have this shape. -/
structure Regexp where
  /-- The literal text that opens the expression. -/
  literal : String
  /-- The name of the capture group. -/
  groupName : String
  /-- The class repeated inside the capture group. -/
  cls : PerlClass
deriving DecidableEq, Repr

/-- A match anchored at the head of `s`: the literal, then the longest non-empty run of
class characters (the repetition is greedy and nothing follows it, so the first match
found by the engine is the longest run).  Returns the capture. -/
def Regexp.matchHere (re : Regexp) (s : List Char) : Option (List Char) :=
  if re.literal.data.isPrefixOf s then
    match (s.drop re.literal.data.length).takeWhile re.cls.mem with
    | [] => none
    | c :: cs => some (c :: cs)
  else none

/-- The leftmost match in `s`, as the list `[whole match, capture]`; the empty list
(Go's `nil`) when there is none. -/
def Regexp.find (re : Regexp) : List Char → List String
  | [] => []
  | c :: cs =>
    match re.matchHere (c :: cs) with
    | some cap => [re.literal ++ String.mk cap, String.mk cap]
    | none => re.find cs

/-- The method `(*Regexp).FindStringSubmatch`: the text of the leftmost match and of its
capture group, or `nil` (the empty slice) when the expression does not match. -/
def Regexp.FindStringSubmatch (re : Regexp) (s : String) : List String :=
  re.find s.data

/-! ## Package `strconv` -/

/-- The size in bits of Go's `int` (`strconv.IntSize`) on the 64-bit targets. -/
def intSize : Nat := 64

/-- The two error causes of `strconv`. -/
inductive ErrKind where
  /-- The sentinel `strconv.ErrSyntax`. -/
  | ErrSyntax
  /-- The sentinel `strconv.ErrRange`. -/
  | ErrRange
deriving DecidableEq, Repr

/-- The error type `*strconv.NumError`. -/
structure NumError where
  /-- The failing function. -/
  Func : String
  /-- The input text. -/
  Num : String
  /-- The cause. -/
  Err : ErrKind
deriving DecidableEq, Repr

/-- The helper `syntaxError` of `strconv`. -/
def syntaxError (fn str : String) : NumError := ⟨fn, str, .ErrSyntax⟩

/-- The helper `rangeError` of `strconv`. -/
def rangeError (fn str : String) : NumError := ⟨fn, str, .ErrRange⟩

/-- The largest `uint64`. -/
def maxUint64 : Nat := 2 ^ 64 - 1

/-- The digit loop of `strconv.ParseUint(s, 10, 64)`.  The accumulator `n` is a `uint64`:
the multiplication and the addition wrap modulo `2 ^ 64`, and the loop detects the
overflow before (`n >= cutoff`) or after (`n1 < n`) it happens. -/
def ParseUint.loop (s0 : String) : List Char → Nat → Nat × Option NumError
  | [], n => (n, none)
  | c :: cs, n =>
    if '0' ≤ c ∧ c ≤ '9' then
      let d := c.toNat - '0'.toNat
      if n ≥ maxUint64 / 10 + 1 then
        (maxUint64, some (rangeError "ParseUint" s0))
      else
        let n := (n * 10) % 2 ^ 64
        let n1 := (n + d) % 2 ^ 64
        if n1 < n ∨ n1 > maxUint64 then
          (maxUint64, some (rangeError "ParseUint" s0))
        else
          ParseUint.loop s0 cs n1
    else
      (0, some (syntaxError "ParseUint" s0))

/-- The function `strconv.ParseUint(s, 10, 64)`.  In base 10 a letter is a digit not
below the base and an underscore is not allowed, so both are syntax errors. -/
def ParseUint (s : String) : Nat × Option NumError :=
  if s = "" then (0, some (syntaxError "ParseUint" s))
  else ParseUint.loop s s.data 0

/-- The function `strconv.ParseInt(s, 10, 0)`: an optional sign, then `ParseUint`; a value
outside the `int` range is replaced by the nearest bound and reported as `ErrRange`. -/
def ParseInt (s : String) : Int × Option NumError :=
  if s = "" then (0, some (syntaxError "ParseInt" s))
  else
    let neg := s.data.head? = some '-'
    let body := if s.data.head? = some '+' ∨ s.data.head? = some '-'
      then String.mk s.data.tail else s
    match ParseUint body with
    | (_, some ⟨_, _, .ErrSyntax⟩) => (0, some (syntaxError "ParseInt" s))
    | (un, _) =>
      let cutoff : Nat := 2 ^ (intSize - 1)
      if ¬ neg ∧ un ≥ cutoff then
        ((cutoff : Int) - 1, some (rangeError "ParseInt" s))
      else if neg ∧ un > cutoff then
        (-(cutoff : Int), some (rangeError "ParseInt" s))
      else
        (if neg then -(un : Int) else (un : Int), none)

/-- The digit loop of the fast path of `strconv.Atoi`.  Each `ch` is a byte, so
`ch -= '0'` wraps modulo 256 and `ch > 9` rejects every byte that is not a digit.  The
accumulator `n` is an `int`; it cannot overflow, the path being taken for fewer than 19
characters only (`decimalFrom_lt` bounds the result by `10 ^ 18`). -/
def Atoi.fast : List Char → Int → Option Int
  | [], n => some n
  | ch :: rest, n =>
    let ch := (ch.toNat + 256 - '0'.toNat) % 256
    if ch > 9 then none else Atoi.fast rest (n * 10 + ch)

/-- The function `strconv.Atoi`: the fast path for texts short enough to fit `int`
without overflow, otherwise `ParseInt(s, 10, 0)` with the function name replaced. -/
def Atoi (s : String) : Int × Option NumError :=
  let sLen := s.length
  if (intSize = 32 ∧ 0 < sLen ∧ sLen < 10) ∨ (intSize = 64 ∧ 0 < sLen ∧ sLen < 19) then
    let s0 := s
    let neg := s.data.head? = some '-'
    let body := if s.data.head? = some '-' ∨ s.data.head? = some '+' then s.data.tail
      else s.data
    if body.length < 1 then (0, some (syntaxError "Atoi" s0))
    else
      match Atoi.fast body 0 with
      | none => (0, some (syntaxError "Atoi" s0))
      | some n => (if neg then -n else n, none)
  else
    match ParseInt s with
    | (i64, some nerr) => (i64, some ⟨"Atoi", nerr.Num, nerr.Err⟩)
    | (i64, none) => (i64, none)

/-! ## The type `float64` -/

/-- An IEEE-754 binary64 value.  A finite value is `(-1) ^ sign * mant * 2 ^ exp` with
`mant < 2 ^ 53`; zeros and subnormals have `exp = -1074`, every other finite value has
`2 ^ 52 ≤ mant`, so equal values have equal representations. -/
inductive Float64 where
  /-- A finite value, zero included (the sign of a zero is kept). -/
  | finite (sign : Bool) (mant : Nat) (exp : Int)
  /-- An infinity. -/
  | inf (sign : Bool)
  /-- Not a number. -/
  | nan
deriving DecidableEq, Repr

/-- The number of halvings that bring `n` below 2, within `fuel` steps. -/
def Float64.log2Aux : Nat → Nat → Nat
  | 0, _ => 0
  | fuel + 1, n => if n < 2 then 0 else Float64.log2Aux fuel (n / 2) + 1

/-- The position of the highest set bit of `n`: the largest `k` with `2 ^ k ≤ n`. -/
def Float64.log2 (n : Nat) : Nat := Float64.log2Aux n n

/-- The largest `e` with `2 ^ e ≤ p / q`, for positive `p` and `q`. -/
def Float64.ilog2 (p q : Nat) : Int :=
  let e : Int := (Float64.log2 p : Int) - (Float64.log2 q : Int)
  if q * 2 ^ e.toNat ≤ p * 2 ^ (-e).toNat then e else e - 1

/-- The value `(-1) ^ neg * p / q` rounded to the nearest `float64`, ties to the even
significand (`q` is not zero). -/
def Float64.round (neg : Bool) (p q : Nat) : Float64 :=
  if p = 0 then .finite neg 0 (-1074)
  else
    let sh : Int := max (Float64.ilog2 p q - 52) (-1074)
    let P := p * 2 ^ (-sh).toNat
    let Q := q * 2 ^ sh.toNat
    let m0 := P / Q
    let r := P % Q
    let m := if 2 * r < Q then m0 else if Q < 2 * r then m0 + 1
      else if m0 % 2 = 0 then m0 else m0 + 1
    let m1 := if m = 2 ^ 53 then 2 ^ 52 else m
    let sh1 := if m = 2 ^ 53 then sh + 1 else sh
    if 971 < sh1 then .inf neg else .finite neg m1 sh1

/-- The conversion `float64(n)` of an integer. -/
def Float64.ofInt (n : Int) : Float64 := Float64.round (decide (n < 0)) n.natAbs 1

/-- The literal `p / q` written as a decimal constant, for instance `25.3` is
`Float64.lit 253 10`: the nearest `float64`. -/
def Float64.lit (p q : Nat) : Float64 := Float64.round false p q

/-- The quotient `x / y` of two `float64` values. -/
def Float64.div : Float64 → Float64 → Float64
  | .nan, _ => .nan
  | _, .nan => .nan
  | .inf _, .inf _ => .nan
  | .inf s, .finite t _ _ => .inf (xor s t)
  | .finite s _ _, .inf t => .finite (xor s t) 0 (-1074)
  | .finite s m e, .finite t n f =>
    if n = 0 then (if m = 0 then .nan else .inf (xor s t))
    else Float64.round (xor s t) (m * 2 ^ (e - f).toNat) (n * 2 ^ (f - e).toNat)

/-- The rational number denoted by a finite value. -/
def Float64.toRat : Float64 → Option ℚ
  | .finite s m e => some ((if s then -1 else 1) * (m : ℚ) * (2 : ℚ) ^ e)
  | _ => none

/-! ## Package `prometheus` -/

/-- The function `model.IsValidMetricName` (the classic name rule
`[a-zA-Z_:][a-zA-Z0-9_:]*`) on the characters from position `i` on. -/
def IsValidMetricName.loop : List Char → Nat → Bool
  | [], _ => true
  | b :: bs, i =>
    if ('a' ≤ b ∧ b ≤ 'z') ∨ ('A' ≤ b ∧ b ≤ 'Z') ∨ b = '_' ∨ b = ':'
        ∨ ('0' ≤ b ∧ b ≤ '9' ∧ i > 0) then
      IsValidMetricName.loop bs (i + 1)
    else false

/-- The function `model.IsValidMetricName`: the name is not empty and every character is
a letter, `_`, `:` or, after the first position, a digit. -/
def IsValidMetricName (n : String) : Bool :=
  if n.length = 0 then false else IsValidMetricName.loop n.data 0

/-- The function `prometheus.BuildFQName`: the non-empty parts joined by `_`; empty when
the metric name is empty. -/
def BuildFQName (namespace_ subsystem name : String) : String :=
  if name = "" then ""
  else if namespace_ ≠ "" ∧ subsystem ≠ "" then
    namespace_ ++ "_" ++ subsystem ++ "_" ++ name
  else if namespace_ ≠ "" then namespace_ ++ "_" ++ name
  else if subsystem ≠ "" then subsystem ++ "_" ++ name
  else name

/-- The descriptor `prometheus.Desc`: the fully-qualified name, the help text, the names
of the variable labels, and the error recorded at construction (`nil` is `none`). -/
structure Desc where
  /-- The fully-qualified metric name. -/
  fqName : String
  /-- The help text. -/
  help : String
  /-- The names of the variable labels. -/
  variableLabels : List String
  /-- The construction error, reported by every later use of the descriptor. -/
  err : Option String
deriving DecidableEq, Repr

/-- The function `prometheus.NewDesc` with no constant labels: it never fails, and records
an error in the descriptor when the name is not a valid metric name.  (Its checks of the
label names are left out: the collector passes none.  The error text is kept without the
escaping of `%q`.) -/
def NewDesc (fqName help : String) (variableLabels : List String) : Desc :=
  { fqName := fqName
    help := help
    variableLabels := variableLabels
    err := if IsValidMetricName fqName then none
      else some ("\"" ++ fqName ++ "\" is not a valid metric name") }

/-- The type `prometheus.ValueType`. -/
inductive ValueType where
  /-- The constant `prometheus.CounterValue`. -/
  | CounterValue
  /-- The constant `prometheus.GaugeValue`. -/
  | GaugeValue
  /-- The constant `prometheus.UntypedValue`. -/
  | UntypedValue
deriving DecidableEq, Repr

/-- A constant metric (`prometheus.Metric` built by `NewConstMetric`): one sample. -/
structure Metric where
  /-- The descriptor of the sample. -/
  desc : Desc
  /-- The kind of the sample. -/
  valueType : ValueType
  /-- The value of the sample. -/
  value : Float64
  /-- The values of the variable labels. -/
  labelValues : List String
deriving DecidableEq, Repr

/-- The function `prometheus.NewConstMetric`: fails with the descriptor's construction
error, or when the number of label values differs from the number of variable labels. -/
def NewConstMetric (desc : Desc) (valueType : ValueType) (value : Float64)
    (labelValues : List String) : Except String Metric :=
  match desc.err with
  | some e => .error e
  | none =>
    if labelValues.length ≠ desc.variableLabels.length then
      .error "inconsistent label cardinality"
    else .ok ⟨desc, valueType, value, labelValues⟩

/-- The function `prometheus.MustNewConstMetric`: `NewConstMetric`, panicking on error. -/
def MustNewConstMetric (desc : Desc) (valueType : ValueType) (value : Float64)
    (labelValues : List String) : Except Panic Metric :=
  match NewConstMetric desc valueType value labelValues with
  | .ok m => .ok m
  | .error e => .error (.mustNewConstMetric e)

/-! ## The collector -/

/-- The variable `androidLabelNames`. -/
def androidLabelNames : List String := []

/-- The type `log.Logger`; the collector stores it and never uses it. -/
structure Logger where
  /-- An identifier of the logger. -/
  id : Nat
deriving DecidableEq, Repr

/-- The type `androidCollector`. -/
structure androidCollector where
  /-- The descriptor of the charging state. -/
  batteryChargingDesc : Desc
  /-- The descriptor of the battery level. -/
  batteryLevelDesc : Desc
  /-- The descriptor of the battery temperature. -/
  batteryTempDesc : Desc
  /-- The logger. -/
  logger : Logger
deriving DecidableEq, Repr

/-- The function `NewAndroidCollector`; the second component of the result is the error,
always `nil`.  The package constant `namespace` is the argument `namespace_`. -/
def NewAndroidCollector (namespace_ : String) (logger : Logger) :
    androidCollector × Option String :=
  let subsystem := "android"
  let batteryChargingDesc := NewDesc
    (BuildFQName namespace_ subsystem "battery_charging")
    "Charging state."
    androidLabelNames
  let batteryLevelDesc := NewDesc
    (BuildFQName namespace_ subsystem "battery_level")
    "Level of charged battery."
    androidLabelNames
  let batteryTempDesc := NewDesc
    (BuildFQName namespace_ subsystem "battery_temperature")
    "Temperature of battery."
    androidLabelNames
  ({ batteryChargingDesc := batteryChargingDesc
     batteryLevelDesc := batteryLevelDesc
     batteryTempDesc := batteryTempDesc
     logger := logger }, none)

/-- The error value of an external command (`*exec.ExitError`, `*exec.Error`, a pipe
error): only whether there is one matters to the callers. -/
inductive ExecError where
  /-- The command ran and exited with a non-zero status. -/
  | exitError (code : Nat)
  /-- The command could not be started. -/
  | startError (msg : String)
  /-- The output could not be captured. -/
  | captureError (msg : String)
deriving DecidableEq, Repr

/-- The result of `exec.Command("/system/bin/dumpsys", "battery").Output()`: the bytes
captured from the standard output and the error value. -/
structure CmdOutput where
  /-- The captured standard output. -/
  out : String
  /-- The error value, `none` for `nil`. -/
  err : Option ExecError
deriving DecidableEq, Repr

/-- The expression `regexp.MustCompile("AC powered: (?P<charging>\\w+)")`. -/
def batteryChargingRegex : Regexp := ⟨"AC powered: ", "charging", .word⟩

/-- The expression `regexp.MustCompile("level: (?P<level>\\d+)")`. -/
def batteryLevelRegex : Regexp := ⟨"level: ", "level", .digit⟩

/-- The expression `regexp.MustCompile("temperature: (?P<temp>\\d+)")`. -/
def batteryTempRegex : Regexp := ⟨"temperature: ", "temp", .digit⟩

/-- The method `GetStats`.  The error of the command and the errors of both `Atoi` calls
are discarded (`_`); each `[1]` panics when its expression did not match. -/
def androidCollector.GetStats (_c : androidCollector) (dumpsys : CmdOutput) :
    Except Panic (Float64 × Float64 × Float64) := do
  let (out, _) := (dumpsys.out, dumpsys.err)
  let output := out
  let charging_str ← index (batteryChargingRegex.FindStringSubmatch output) 1
  let charging_value :=
    if charging_str = "true" then Float64.lit 1 1 else Float64.lit 0 1
  let (level_value, _) := Atoi (← index (batteryLevelRegex.FindStringSubmatch output) 1)
  let (temp_value, _) := Atoi (← index (batteryTempRegex.FindStringSubmatch output) 1)
  return (charging_value, Float64.ofInt level_value,
    Float64.div (Float64.ofInt temp_value) (Float64.lit 10 1))

/-- The state after a call of `Update`: how the call ended (the returned `error`, with
`none` for `nil`, or a panic) and the content of the channel. -/
structure UpdateResult where
  /-- The returned error value, or the panic that ended the call. -/
  status : Except Panic (Option String)
  /-- The samples on the channel `ch`, oldest first. -/
  ch : List Metric
deriving DecidableEq, Repr

/-- The method `Update` on a channel holding `ch`: `GetStats`, then three sends, each of
a sample built by `MustNewConstMetric`; a panic ends the call where it happens.  A send
`ch <- m` appends `m` to the channel (the channel is open and its reader keeps up). -/
def androidCollector.Update (c : androidCollector) (dumpsys : CmdOutput)
    (ch : List Metric) : UpdateResult :=
  match c.GetStats dumpsys with
  | .error p => ⟨.error p, ch⟩
  | .ok (charging, level, temp) =>
    match MustNewConstMetric c.batteryChargingDesc .GaugeValue charging [] with
    | .error p => ⟨.error p, ch⟩
    | .ok m =>
      let ch := ch ++ [m]
      match MustNewConstMetric c.batteryLevelDesc .GaugeValue level [] with
      | .error p => ⟨.error p, ch⟩
      | .ok m =>
        let ch := ch ++ [m]
        match MustNewConstMetric c.batteryTempDesc .GaugeValue temp [] with
        | .error p => ⟨.error p, ch⟩
        | .ok m =>
          let ch := ch ++ [m]
          ⟨.ok none, ch⟩

/-- The part of the process state that a call of `Update` can reach: the object behind
the receiver `c` (a pointer, so the method is free to assign its fields), the package
variable `androidLabelNames`, and the content of the channel `ch`. -/
structure Process where
  /-- The collector object behind the receiver pointer. -/
  collector : androidCollector
  /-- The package variable `androidLabelNames`. -/
  labelNames : List String
  /-- The samples on the channel, oldest first. -/
  ch : List Metric
deriving DecidableEq, Repr

/-- The statement `ch <- m`: the sample is appended to the channel; nothing else of the
process state changes. -/
def Process.send (p : Process) (m : Metric) : Process :=
  { p with ch := p.ch ++ [m] }

/-- The method `Update` as a transformer of the process state, statement by statement:
the call of `GetStats`, then three times a descriptor read from the receiver as it is at
that point, `MustNewConstMetric`, and a send.  The result is the state in which the call
ends, and how it ends (the returned `error`, or a panic). -/
def Process.Update (p : Process) (dumpsys : CmdOutput) :
    Process × Except Panic (Option String) :=
  match p.collector.GetStats dumpsys with
  | .error e => (p, .error e)
  | .ok (charging, level, temp) =>
    match MustNewConstMetric p.collector.batteryChargingDesc .GaugeValue charging [] with
    | .error e => (p, .error e)
    | .ok m =>
      let p := p.send m
      match MustNewConstMetric p.collector.batteryLevelDesc .GaugeValue level [] with
      | .error e => (p, .error e)
      | .ok m =>
        let p := p.send m
        match MustNewConstMetric p.collector.batteryTempDesc .GaugeValue temp [] with
        | .error e => (p, .error e)
        | .ok m =>
          let p := p.send m
          (p, .ok none)

/-! ## Specification functions -/

/-- The number denoted by the decimal digits `ds` written after the number `n`. -/
def decimalFrom (n : Nat) (ds : List Char) : Nat :=
  ds.foldl (fun a c => a * 10 + (c.toNat - '0'.toNat)) n

/-- The number denoted by a string of decimal digits (leading zeros allowed). -/
def decimalValue (ds : List Char) : Nat := decimalFrom 0 ds

/-- The comparison `x >= 0` of Go on a `float64`: true for the zeros, the positive finite
values and `+Inf`; false for the negative values and for NaN. -/
def Float64.nonneg : Float64 → Bool
  | .finite s m _ => !s || m == 0
  | .inf s => !s
  | .nan => false

/-! ## Lemmas on the regular expressions -/

/-- Indexing the empty slice panics. -/
theorem index_nil (i : Nat) : index [] i = .error (.indexOutOfRange i 0) := rfl

/-- Index 1 of a two-element slice is its second element. -/
theorem index_pair (a b : String) : index [a, b] 1 = .ok b := rfl

/-- An anchored match yields a non-empty capture made of class characters: the longest
run after the literal. -/
theorem matchHere_some (re : Regexp) (s cap : List Char) (h : re.matchHere s = some cap) :
    cap ≠ [] ∧ (∀ c ∈ cap, re.cls.mem c = true) ∧ re.literal.data <+: s ∧
      cap = (s.drop re.literal.data.length).takeWhile re.cls.mem := by
  unfold Regexp.matchHere at h
  split at h
  · rename_i hp
    split at h
    · exact absurd h (by simp)
    · rename_i c cs hcs
      have hcap : cap = c :: cs := by simpa using h.symm
      subst hcap
      refine ⟨by simp, ?_, List.isPrefixOf_iff_prefix.mp hp, hcs.symm⟩
      intro x hx
      rw [← hcs] at hx
      exact List.mem_takeWhile_imp hx
  · exact absurd h (by simp)

/-- The search returns either nothing or the pair of the whole match and a non-empty
capture of class characters. -/
theorem find_cases (re : Regexp) (s : List Char) :
    re.find s = [] ∨ ∃ cap : List Char, cap ≠ [] ∧ (∀ c ∈ cap, re.cls.mem c = true) ∧
      re.find s = [re.literal ++ String.mk cap, String.mk cap] := by
  induction s with
  | nil => left; rfl
  | cons a s ih =>
    unfold Regexp.find
    cases hm : re.matchHere (a :: s) with
    | none => simpa using ih
    | some cap =>
      right
      obtain ⟨h1, h2, -, -⟩ := matchHere_some re _ _ hm
      exact ⟨cap, h1, h2, rfl⟩

/-- The search fails on `a :: s` exactly when there is no match at the head and none
further on. -/
theorem find_eq_nil_cons (re : Regexp) (a : Char) (s : List Char) :
    re.find (a :: s) = [] ↔ re.matchHere (a :: s) = none ∧ re.find s = [] := by
  rw [Regexp.find]
  cases hm : re.matchHere (a :: s) <;> simp

/-- A failed anchored match on a text longer than the literal stays failed when the text
is extended. -/
theorem matchHere_append_none (re : Regexp) (s t : List Char)
    (hlen : re.literal.data.length < s.length) (h : re.matchHere s = none) :
    re.matchHere (s ++ t) = none := by
  unfold Regexp.matchHere at h ⊢
  by_cases hp : re.literal.data.isPrefixOf s = true
  · rw [if_pos hp] at h
    have hp2 : re.literal.data.isPrefixOf (s ++ t) = true :=
      List.isPrefixOf_iff_prefix.mpr ((List.isPrefixOf_iff_prefix.mp hp).trans
        (List.prefix_append s t))
    rw [if_pos hp2]
    have htw : (s.drop re.literal.data.length).takeWhile re.cls.mem = [] := by
      cases hc : (s.drop re.literal.data.length).takeWhile re.cls.mem with
      | nil => rfl
      | cons c cs => rw [hc] at h; exact absurd h (by simp)
    have hdrop : (s ++ t).drop re.literal.data.length
        = s.drop re.literal.data.length ++ t :=
      List.drop_append_of_le_length (le_of_lt hlen)
    rw [hdrop]
    cases hd : s.drop re.literal.data.length with
    | nil =>
      have := List.drop_eq_nil_iff.mp hd
      omega
    | cons x xs =>
      rw [hd] at htw
      have hx : re.cls.mem x = false := by
        by_contra hne
        simp only [Bool.not_eq_false] at hne
        simp [List.takeWhile, hne] at htw
      simp [List.takeWhile, hx]
  · have hp2 : ¬ re.literal.data.isPrefixOf (s ++ t) = true := by
      intro hq
      apply hp
      exact List.isPrefixOf_iff_prefix.mpr
        (List.prefix_of_prefix_length_le (List.isPrefixOf_iff_prefix.mp hq)
          (List.prefix_append s t) (le_of_lt hlen))
    rw [if_neg hp2]

/-- The longest run of `p` at the head of `cap ++ post` is `cap` when `post` does not go
on with `p`. -/
theorem takeWhile_run (p : Char → Bool) (cap post : List Char)
    (hcap : ∀ c ∈ cap, p c = true) (hpost : ∀ c, post.head? = some c → p c = false) :
    (cap ++ post).takeWhile p = cap := by
  induction cap with
  | nil =>
    cases post with
    | nil => rfl
    | cons x xs => simp [List.takeWhile, hpost x rfl]
  | cons a cap ih =>
    have ha : p a = true := hcap a (by simp)
    rw [List.cons_append, List.takeWhile_cons, ha, if_pos rfl,
      ih (fun c hc => hcap c (List.mem_cons_of_mem _ hc))]

/-- The anchored match on the literal followed by a run of class characters captures
that run. -/
theorem matchHere_literal_run (re : Regexp) (cap post : List Char) (hne : cap ≠ [])
    (hcap : ∀ c ∈ cap, re.cls.mem c = true)
    (hpost : ∀ c, post.head? = some c → re.cls.mem c = false) :
    re.matchHere (re.literal.data ++ cap ++ post) = some cap := by
  unfold Regexp.matchHere
  have hp : re.literal.data.isPrefixOf (re.literal.data ++ cap ++ post) = true := by
    rw [List.append_assoc]
    exact List.isPrefixOf_iff_prefix.mpr (List.prefix_append _ _)
  rw [if_pos hp, List.append_assoc, List.drop_left, takeWhile_run _ _ _ hcap hpost]
  cases cap with
  | nil => exact absurd rfl hne
  | cons c cs => rfl

/-- Leftmost match: with no match before it, the literal followed by the run `cap` is
what the search returns. -/
theorem find_append (re : Regexp) (pre cap post : List Char)
    (hpre : re.find (pre ++ re.literal.data) = []) (hne : cap ≠ [])
    (hcap : ∀ c ∈ cap, re.cls.mem c = true)
    (hpost : ∀ c, post.head? = some c → re.cls.mem c = false) :
    re.find (pre ++ re.literal.data ++ cap ++ post)
      = [re.literal ++ String.mk cap, String.mk cap] := by
  induction pre with
  | nil =>
    have hm := matchHere_literal_run re cap post hne hcap hpost
    simp only [List.nil_append] at hm ⊢
    cases hl : re.literal.data ++ cap ++ post with
    | nil =>
      have : cap = [] := by
        have := congrArg List.length hl
        simp only [List.length_append, List.length_nil] at this
        exact List.length_eq_zero.mp (by omega)
      exact absurd this hne
    | cons x xs =>
      rw [hl] at hm
      rw [Regexp.find, hm]
  | cons a pre ih =>
    simp only [List.cons_append] at hpre ⊢
    obtain ⟨h1, h2⟩ := (find_eq_nil_cons re a _).mp hpre
    have h3 : re.matchHere (a :: (pre ++ re.literal.data ++ cap ++ post)) = none := by
      have := matchHere_append_none re (a :: (pre ++ re.literal.data)) (cap ++ post)
        (by simp; omega) h1
      simpa [List.append_assoc] using this
    rw [Regexp.find, h3]
    exact ih h2

/-! ## Lemmas on `strconv` -/

/-- The order of characters is the order of their codes. -/
theorem char_le_iff (c d : Char) : c ≤ d ↔ c.toNat ≤ d.toNat := by
  rw [Char.le_def, UInt32.le_def, BitVec.le_def]
  rfl

/-- The decimal digits are the characters with codes 48 to 57. -/
theorem isDigit_iff (c : Char) : c.isDigit = true ↔ 48 ≤ c.toNat ∧ c.toNat ≤ 57 := by
  unfold Char.isDigit
  rw [Bool.and_eq_true, decide_eq_true_iff, decide_eq_true_iff]
  show (48 : UInt32) ≤ c.val ∧ c.val ≤ (57 : UInt32) ↔ _
  rw [UInt32.le_def, UInt32.le_def, BitVec.le_def, BitVec.le_def]
  rfl

/-- Reading one more digit multiplies by ten and adds the digit. -/
theorem decimalFrom_cons (n : Nat) (c : Char) (ds : List Char) :
    decimalFrom n (c :: ds) = decimalFrom (n * 10 + (c.toNat - 48)) ds := rfl

/-- Reading digits never decreases the number read so far. -/
theorem le_decimalFrom (n : Nat) (ds : List Char) : n ≤ decimalFrom n ds := by
  induction ds generalizing n with
  | nil => exact le_refl _
  | cons c ds ih =>
    rw [decimalFrom_cons]
    exact le_trans (by omega) (ih _)

/-- A run of `k` digits after `n` denotes a number below `(n + 1) * 10 ^ k`. -/
theorem decimalFrom_lt (n : Nat) (ds : List Char) (hds : ∀ c ∈ ds, c.isDigit = true) :
    decimalFrom n ds < (n + 1) * 10 ^ ds.length := by
  induction ds generalizing n with
  | nil => simp [decimalFrom]
  | cons c ds ih =>
    rw [decimalFrom_cons]
    have hc := (isDigit_iff c).mp (hds c (by simp))
    have h := ih (n * 10 + (c.toNat - 48)) (fun x hx => hds x (List.mem_cons_of_mem _ hx))
    have h2 : (n * 10 + (c.toNat - 48) + 1) * 10 ^ ds.length
        ≤ (n + 1) * 10 ^ (c :: ds).length := by
      have e : (n + 1) * 10 ^ (c :: ds).length = (n + 1) * 10 * 10 ^ ds.length := by
        rw [List.length_cons, pow_succ]
        ring
      rw [e]
      apply Nat.mul_le_mul_right
      omega
    omega

/-- The loop of `ParseUint` on digits returns the number they denote when it fits 64
bits, and the largest `uint64` with a range error otherwise: the wrapped arithmetic
detects every overflow. -/
theorem ParseUint_loop_digits (s0 : String) (ds : List Char) (n : Nat)
    (hds : ∀ c ∈ ds, c.isDigit = true) (hn : n ≤ maxUint64) :
    ParseUint.loop s0 ds n =
      if decimalFrom n ds ≤ maxUint64 then (decimalFrom n ds, none)
      else (maxUint64, some (rangeError "ParseUint" s0)) := by
  induction ds generalizing n with
  | nil => simp [ParseUint.loop, decimalFrom, hn]
  | cons c ds ih =>
    have hc := (isDigit_iff c).mp (hds c (by simp))
    have hc1 : '0' ≤ c ∧ c ≤ '9' := by
      rw [char_le_iff, char_le_iff]
      exact hc
    have hge := le_decimalFrom (n * 10 + (c.toNat - 48)) ds
    rw [ParseUint.loop, if_pos hc1, decimalFrom_cons]
    unfold maxUint64 at hn hge ⊢
    by_cases hcut : n ≥ (2 ^ 64 - 1) / 10 + 1
    · rw [if_pos hcut, if_neg (by omega)]
    · rw [if_neg hcut]
      have hmul : n * 10 % 2 ^ 64 = n * 10 := Nat.mod_eq_of_lt (by omega)
      have hd : c.toNat - '0'.toNat = c.toNat - 48 := rfl
      simp only [hmul, hd]
      by_cases hov : n * 10 + (c.toNat - 48) < 2 ^ 64
      · rw [Nat.mod_eq_of_lt hov, if_neg (by omega)]
        exact ih _ (fun x hx => hds x (List.mem_cons_of_mem _ hx))
          (by have := hd; unfold maxUint64; omega)
      · have hmod : (n * 10 + (c.toNat - 48)) % 2 ^ 64
            = n * 10 + (c.toNat - 48) - 2 ^ 64 := by
          rw [Nat.mod_eq_sub_mod (by omega)]
          exact Nat.mod_eq_of_lt (by omega)
        rw [hmod, if_pos (by omega), if_neg (by omega)]

/-- The fast path of `Atoi` on digits returns the number they denote. -/
theorem Atoi_fast_digits (ds : List Char) (n : Nat) (hds : ∀ c ∈ ds, c.isDigit = true) :
    Atoi.fast ds (n : Int) = some ((decimalFrom n ds : Nat) : Int) := by
  induction ds generalizing n with
  | nil => rfl
  | cons c ds ih =>
    have hc := (isDigit_iff c).mp (hds c (by simp))
    have h1 : (c.toNat + 256 - '0'.toNat) % 256 = c.toNat - 48 := by
      show (c.toNat + 256 - 48) % 256 = c.toNat - 48
      omega
    rw [Atoi.fast, decimalFrom_cons]
    simp only [h1]
    rw [if_neg (by omega)]
    have := ih (n * 10 + (c.toNat - 48)) (fun x hx => hds x (List.mem_cons_of_mem _ hx))
    rw [← this]
    congr 1

/-- A decimal digit is not a sign character. -/
theorem digit_ne_sign (c : Char) (hc : c.isDigit = true) : c ≠ '-' ∧ c ≠ '+' := by
  have h := (isDigit_iff c).mp hc
  constructor <;> intro e <;> rw [e] at h <;> revert h <;> decide

/-- On a non-empty run of digits `ParseInt` returns the number denoted when it is below
`2 ^ 63`, and `2 ^ 63 - 1` with a range error otherwise. -/
theorem ParseInt_digits (ds : List Char) (hne : ds ≠ []) (hds : ∀ c ∈ ds, c.isDigit = true) :
    ParseInt (String.mk ds) =
      if decimalValue ds < 2 ^ 63 then ((decimalValue ds : Int), none)
      else (2 ^ 63 - 1, some (rangeError "ParseInt" (String.mk ds))) := by
  cases ds with
  | nil => exact absurd rfl hne
  | cons c cs =>
    obtain ⟨hm, hp⟩ := digit_ne_sign c (hds c (by simp))
    have hloop := ParseUint_loop_digits (String.mk (c :: cs)) (c :: cs) 0 hds
      (by unfold maxUint64; omega)
    have hs : ¬ (some c = some '+' ∨ some c = some '-') := by simp [hm, hp]
    have hs2 : ¬ (some c = some '-') := by simp [hm]
    have he : ¬ (String.mk (c :: cs) = "") := by
      intro e
      exact absurd (congrArg String.data e) (by simp)
    unfold ParseInt
    simp only [List.head?, List.tail]
    rw [if_neg he, if_neg hs]
    unfold ParseUint
    rw [if_neg he]
    simp only []
    rw [hloop]
    unfold decimalValue
    by_cases h64 : decimalFrom 0 (c :: cs) ≤ maxUint64
    · rw [if_pos h64]
      simp only [intSize, hs2]
      by_cases h63 : decimalFrom 0 (c :: cs) < 2 ^ 63
      · rw [if_pos h63]
        simp
        omega
      · rw [if_neg h63]
        simp
        omega
    · rw [if_neg h64]
      unfold maxUint64 at h64
      rw [if_neg (by omega)]
      simp [intSize, hs2, rangeError, maxUint64]

/-- On a non-empty run of digits `Atoi` returns the number denoted when it is below `2 ^
63`, and `2 ^ 63 - 1` with a range error otherwise. -/
theorem Atoi_digits (ds : List Char) (hne : ds ≠ []) (hds : ∀ c ∈ ds, c.isDigit = true) :
    Atoi (String.mk ds) =
      if decimalValue ds < 2 ^ 63 then ((decimalValue ds : Int), none)
      else (2 ^ 63 - 1, some ⟨"Atoi", String.mk ds, .ErrRange⟩) := by
  have hPI := ParseInt_digits ds hne hds
  cases ds with
  | nil => exact absurd rfl hne
  | cons c cs =>
    obtain ⟨hm, hp⟩ := digit_ne_sign c (hds c (by simp))
    have hlt := decimalFrom_lt 0 (c :: cs) hds
    have hfast := Atoi_fast_digits (c :: cs) 0 hds
    have hs : ¬ (some c = some '-' ∨ some c = some '+') := by simp [hm, hp]
    have hs2 : ¬ (some c = some '-') := by simp [hm]
    unfold Atoi
    simp only [String.length, intSize, List.head?, List.tail]
    by_cases hlen : (c :: cs).length < 19
    · have hpow : 10 ^ (c :: cs).length ≤ 10 ^ 18 :=
        Nat.pow_le_pow_right (by omega) (by omega)
      have hval : decimalValue (c :: cs) < 2 ^ 63 := by
        unfold decimalValue
        omega
      rw [if_pos (Or.inr ⟨trivial, by simp, hlen⟩), if_neg hs, if_neg (by simp),
        show (0 : Int) = ((0 : Nat) : Int) from rfl, hfast, if_pos hval]
      simp only [if_neg hs2]
      rfl
    · rw [if_neg (by omega), hPI]
      by_cases h63 : decimalValue (c :: cs) < 2 ^ 63
      · simp only [if_pos h63]
      · simp only [if_neg h63, rangeError]

/-! ## Lemmas on `float64` -/

/-- With enough fuel the halving count brackets `n` between two powers of two. -/
theorem log2Aux_spec (fuel n : Nat) (hf : n ≤ fuel) (hn : 1 ≤ n) :
    2 ^ Float64.log2Aux fuel n ≤ n ∧ n < 2 ^ (Float64.log2Aux fuel n + 1) := by
  induction fuel generalizing n with
  | zero => omega
  | succ fuel ih =>
    unfold Float64.log2Aux
    by_cases h2 : n < 2
    · rw [if_pos h2]
      constructor <;> simp <;> omega
    · rw [if_neg h2]
      obtain ⟨a, b⟩ := ih (n / 2) (by omega) (by omega)
      have e1 : 2 ^ (Float64.log2Aux fuel (n / 2) + 1)
          = 2 * 2 ^ Float64.log2Aux fuel (n / 2) := by ring
      have e2 : 2 ^ (Float64.log2Aux fuel (n / 2) + 1 + 1)
          = 4 * 2 ^ Float64.log2Aux fuel (n / 2) := by ring
      rw [e1] at b
      rw [e1, e2]
      constructor <;> omega

/-- The result of `Float64.log2` is the position of the highest set bit. -/
theorem log2_spec (n : Nat) (hn : 1 ≤ n) :
    2 ^ Float64.log2 n ≤ n ∧ n < 2 ^ (Float64.log2 n + 1) :=
  log2Aux_spec n n (le_refl n) hn

/-- Rounding a natural number below `2 ^ 53` is exact. -/
theorem round_nat_exact (neg : Bool) (n : Nat) (h : n < 2 ^ 53) :
    (Float64.round neg n 1).toRat = some ((if neg then -1 else 1) * (n : ℚ)) := by
  unfold Float64.round
  by_cases h0 : n = 0
  · rw [if_pos h0, h0]
    simp [Float64.toRat]
  · rw [if_neg h0]
    obtain ⟨ha, hb⟩ := log2_spec n (by omega)
    have hk : Float64.log2 n < 53 := by
      by_contra hge
      have : 2 ^ 53 ≤ 2 ^ Float64.log2 n := Nat.pow_le_pow_right (by omega) (by omega)
      omega
    have h1 : Float64.log2 1 = 0 := rfl
    have hil : Float64.ilog2 n 1 = (Float64.log2 n : Int) := by
      unfold Float64.ilog2
      simp only [h1]
      rw [if_pos]
      · simp
      · simpa using ha
    have hsh : max (Float64.ilog2 n 1 - 52) (-1074) = (Float64.log2 n : Int) - 52 := by
      rw [hil]
      omega
    simp only [hsh]
    have ht1 : ((Float64.log2 n : Int) - 52).toNat = 0 := by omega
    have ht2 : (-((Float64.log2 n : Int) - 52)).toNat = 52 - Float64.log2 n := by omega
    simp only [ht1, ht2, pow_zero, mul_one, Nat.div_one, Nat.mod_one, Nat.mul_zero]
    have hM : n * 2 ^ (52 - Float64.log2 n) < 2 ^ 53 := by
      have e : 2 ^ 53 = 2 ^ (Float64.log2 n + 1) * 2 ^ (52 - Float64.log2 n) := by
        rw [← pow_add]
        congr 1
        omega
      rw [e]
      exact Nat.mul_lt_mul_of_pos_right hb (by positivity)
    rw [if_pos Nat.zero_lt_one, if_neg (ne_of_lt hM), if_neg (ne_of_lt hM),
      if_neg (by omega)]
    have hz : ((Float64.log2 n : Int) - 52) = -((52 - Float64.log2 n : Nat) : Int) := by
      omega
    rw [hz]
    simp only [Float64.toRat]
    rw [zpow_neg, zpow_natCast]
    congr 1
    push_cast
    have hpos : ((2 : ℚ) ^ (52 - Float64.log2 n)) ≠ 0 := by positivity
    field_simp

/-- The conversion `float64(n)` is exact for `|n| < 2 ^ 53`. -/
theorem ofInt_exact (n : Int) (h : n.natAbs < 2 ^ 53) :
    (Float64.ofInt n).toRat = some (n : ℚ) := by
  unfold Float64.ofInt
  rw [round_nat_exact _ _ h]
  congr 1
  rcases Int.eq_nat_or_neg n with ⟨m, rfl | rfl⟩
  · simp
  · by_cases hm : m = 0
    · subst hm
      simp
    · have : (-(m : Int)) < 0 := by omega
      simp [this]

/-! ## Lemmas on `GetStats` -/

/-- The method `FindStringSubmatch` returns `nil` or the whole match and a non-empty
capture of class characters. -/
theorem FindStringSubmatch_cases (re : Regexp) (s : String) :
    re.FindStringSubmatch s = [] ∨ ∃ cap : List Char, cap ≠ [] ∧
      (∀ c ∈ cap, re.cls.mem c = true) ∧
      re.FindStringSubmatch s = [re.literal ++ String.mk cap, String.mk cap] :=
  find_cases re s.data

/-- When the three expressions match, `GetStats` returns the three decoded values. -/
theorem GetStats_ok (c : androidCollector) (d : CmdOutput) (w1 c1 w2 c2 w3 c3 : String)
    (h1 : batteryChargingRegex.FindStringSubmatch d.out = [w1, c1])
    (h2 : batteryLevelRegex.FindStringSubmatch d.out = [w2, c2])
    (h3 : batteryTempRegex.FindStringSubmatch d.out = [w3, c3]) :
    c.GetStats d = .ok (if c1 = "true" then Float64.lit 1 1 else Float64.lit 0 1,
      Float64.ofInt (Atoi c2).1,
      Float64.div (Float64.ofInt (Atoi c3).1) (Float64.lit 10 1)) := by
  unfold androidCollector.GetStats
  simp only [h1, h2, h3, index_pair]
  rfl

/-- When one of the three expressions has no match, `GetStats` panics on the index
`[1]`. -/
theorem GetStats_panic (c : androidCollector) (d : CmdOutput)
    (h : batteryChargingRegex.FindStringSubmatch d.out = [] ∨
      batteryLevelRegex.FindStringSubmatch d.out = [] ∨
      batteryTempRegex.FindStringSubmatch d.out = []) :
    c.GetStats d = .error (.indexOutOfRange 1 0) := by
  unfold androidCollector.GetStats
  rcases FindStringSubmatch_cases batteryChargingRegex d.out with h1 | ⟨k1, -, -, h1⟩
  · simp only [h1, index_nil]
    rfl
  · rcases FindStringSubmatch_cases batteryLevelRegex d.out with h2 | ⟨k2, -, -, h2⟩
    · simp only [h1, h2, index_nil, index_pair]
      rfl
    · rcases FindStringSubmatch_cases batteryTempRegex d.out with h3 | ⟨k3, -, -, h3⟩
      · simp only [h1, h2, h3, index_nil, index_pair]
        rfl
      · rcases h with h | h | h
        · rw [h1] at h; exact absurd h (by simp)
        · rw [h2] at h; exact absurd h (by simp)
        · rw [h3] at h; exact absurd h (by simp)

/-- The error value of the command has no influence on `GetStats`. -/
theorem GetStats_err_irrelevant (c : androidCollector) (out : String)
    (e1 e2 : Option ExecError) : c.GetStats ⟨out, e1⟩ = c.GetStats ⟨out, e2⟩ := rfl

/-! ## Lemmas on the descriptors -/

/-- Characters that are valid in first position are valid everywhere. -/
theorem loop_of_forall (t : List Char) (i : Nat)
    (h : ∀ c ∈ t, IsValidMetricName.loop [c] 0 = true) : IsValidMetricName.loop t i = true := by
  induction t generalizing i with
  | nil => rfl
  | cons b t ih =>
    have hb := h b (by simp)
    unfold IsValidMetricName.loop at hb ⊢
    split at hb
    · rename_i hcond
      rw [if_pos (by
        rcases hcond with h1 | h1 | h1 | h1 | h1
        · exact Or.inl h1
        · exact Or.inr (Or.inl h1)
        · exact Or.inr (Or.inr (Or.inl h1))
        · exact Or.inr (Or.inr (Or.inr (Or.inl h1)))
        · exact absurd h1.2.2 (by omega))]
      exact ih _ (fun c hc => h c (List.mem_cons_of_mem _ hc))
    · exact absurd hb (by simp)

/-- The name check of a concatenation is the check of both parts. -/
theorem loop_append (a b : List Char) (i : Nat) :
    IsValidMetricName.loop (a ++ b) i
      = (IsValidMetricName.loop a i && IsValidMetricName.loop b (i + a.length)) := by
  induction a generalizing i with
  | nil => simp [IsValidMetricName.loop]
  | cons x a ih =>
    rw [List.cons_append, IsValidMetricName.loop, IsValidMetricName.loop]
    split
    · rw [ih]
      rw [List.length_cons, show i + 1 + a.length = i + (a.length + 1) by omega]
    · simp

/-- The fully-qualified name built from a non-empty namespace. -/
theorem BuildFQName_android (ns name : String) (hns : ns ≠ "") (hname : name ≠ "") :
    BuildFQName ns "android" name = ns ++ "_" ++ "android" ++ "_" ++ name := by
  unfold BuildFQName
  rw [if_neg hname, if_pos ⟨hns, by decide⟩]

/-- The fully-qualified name built from the empty namespace. -/
theorem BuildFQName_android_empty (name : String) (hname : name ≠ "") :
    BuildFQName "" "android" name = "android" ++ "_" ++ name := by
  unfold BuildFQName
  rw [if_neg hname, if_neg (by simp), if_neg (by simp), if_pos (by decide)]

/-- The fully-qualified name of an `android` metric is valid exactly when the characters
of the namespace are. -/
theorem valid_fqName (ns name : String) (hname : name ≠ "")
    (hchars : ∀ c ∈ name.data, IsValidMetricName.loop [c] 0 = true) :
    IsValidMetricName (BuildFQName ns "android" name)
      = IsValidMetricName.loop ns.data 0 := by
  have hA : ∀ c ∈ "_android_".data, IsValidMetricName.loop [c] 0 = true := by decide
  have hlen : ∀ s : String, s.length = s.data.length := fun _ => rfl
  have h9 : "_android_".data.length = 9 := rfl
  have htail : ∀ t : List Char, (∀ c ∈ t, IsValidMetricName.loop [c] 0 = true) →
      ∀ i, IsValidMetricName.loop (t ++ name.data) i = true := by
    intro t ht i
    apply loop_of_forall
    intro c hc
    rcases List.mem_append.mp hc with h | h
    · exact ht c h
    · exact hchars c h
  by_cases hns : ns = ""
  · subst hns
    rw [BuildFQName_android_empty name hname]
    unfold IsValidMetricName
    have hd : ("android" ++ "_" ++ name).data = "android_".data ++ name.data := by
      rw [String.data_append, String.data_append]
      rfl
    have hl : ("android" ++ "_" ++ name).length ≠ 0 := by
      rw [hlen, hd, List.length_append]
      have : "android_".data.length = 8 := rfl
      omega
    rw [if_neg hl, hd, htail _ (by decide)]
    rfl
  · rw [BuildFQName_android ns name hns hname]
    unfold IsValidMetricName
    have hd : (ns ++ "_" ++ "android" ++ "_" ++ name).data
        = ns.data ++ ("_android_".data ++ name.data) := by
      rw [String.data_append, String.data_append, String.data_append, String.data_append]
      simp only [List.append_assoc]
      rfl
    have hl : (ns ++ "_" ++ "android" ++ "_" ++ name).length ≠ 0 := by
      rw [hlen, hd, List.length_append, List.length_append]
      omega
    rw [if_neg hl, hd, loop_append, htail _ hA, Bool.and_true]

/-- A valid metric name passes the character check. -/
theorem IsValidMetricName_loop (ns : String) (h : IsValidMetricName ns = true) :
    IsValidMetricName.loop ns.data 0 = true := by
  unfold IsValidMetricName at h
  split at h
  · exact absurd h (by simp)
  · exact h

/-- The three descriptors of a collector are free of error together: exactly when the
characters of the namespace are valid. -/
theorem desc_err_iff (ns : String) (lg : Logger) :
    ((NewAndroidCollector ns lg).1.batteryChargingDesc.err = none
      ↔ IsValidMetricName.loop ns.data 0 = true) ∧
    ((NewAndroidCollector ns lg).1.batteryLevelDesc.err = none
      ↔ IsValidMetricName.loop ns.data 0 = true) ∧
    ((NewAndroidCollector ns lg).1.batteryTempDesc.err = none
      ↔ IsValidMetricName.loop ns.data 0 = true) := by
  have h1 := valid_fqName ns "battery_charging" (by decide) (by decide)
  have h2 := valid_fqName ns "battery_level" (by decide) (by decide)
  have h3 := valid_fqName ns "battery_temperature" (by decide) (by decide)
  simp only [NewAndroidCollector, NewDesc, h1, h2, h3]
  cases IsValidMetricName.loop ns.data 0 <;> simp

/-- The three descriptors of a collector have no variable label. -/
theorem desc_labels (ns : String) (lg : Logger) :
    (NewAndroidCollector ns lg).1.batteryChargingDesc.variableLabels = [] ∧
    (NewAndroidCollector ns lg).1.batteryLevelDesc.variableLabels = [] ∧
    (NewAndroidCollector ns lg).1.batteryTempDesc.variableLabels = [] :=
  ⟨rfl, rfl, rfl⟩

/-! ## Lemmas on `Update` -/

/-- With a sound descriptor without labels, `MustNewConstMetric` builds the sample. -/
theorem MustNewConstMetric_ok (desc : Desc) (vt : ValueType) (v : Float64)
    (he : desc.err = none) (hl : desc.variableLabels = []) :
    MustNewConstMetric desc vt v [] = .ok ⟨desc, vt, v, []⟩ := by
  simp [MustNewConstMetric, NewConstMetric, he, hl]

/-- With a descriptor carrying an error, `MustNewConstMetric` panics. -/
theorem MustNewConstMetric_err (desc : Desc) (vt : ValueType) (v : Float64)
    (lv : List String) (e : String) (he : desc.err = some e) :
    MustNewConstMetric desc vt v lv = .error (.mustNewConstMetric e) := by
  simp [MustNewConstMetric, NewConstMetric, he]

/-- A panic of `GetStats` ends `Update` before any send. -/
theorem Update_of_GetStats_error (c : androidCollector) (d : CmdOutput) (ch : List Metric)
    (p : Panic) (hg : c.GetStats d = .error p) : c.Update d ch = ⟨.error p, ch⟩ := by
  unfold androidCollector.Update
  rw [hg]

/-- With sound descriptors, `Update` pushes the three values of `GetStats` and returns
`nil`. -/
theorem Update_of_GetStats_ok (c : androidCollector) (d : CmdOutput) (ch : List Metric)
    (v1 v2 v3 : Float64) (hg : c.GetStats d = .ok (v1, v2, v3))
    (he1 : c.batteryChargingDesc.err = none) (he2 : c.batteryLevelDesc.err = none)
    (he3 : c.batteryTempDesc.err = none)
    (hl1 : c.batteryChargingDesc.variableLabels = [])
    (hl2 : c.batteryLevelDesc.variableLabels = [])
    (hl3 : c.batteryTempDesc.variableLabels = []) :
    c.Update d ch = ⟨.ok none, ch ++
      [⟨c.batteryChargingDesc, .GaugeValue, v1, []⟩,
       ⟨c.batteryLevelDesc, .GaugeValue, v2, []⟩,
       ⟨c.batteryTempDesc, .GaugeValue, v3, []⟩]⟩ := by
  unfold androidCollector.Update
  rw [hg]
  simp only [MustNewConstMetric_ok _ _ _ he1 hl1, MustNewConstMetric_ok _ _ _ he2 hl2,
    MustNewConstMetric_ok _ _ _ he3 hl3, List.append_assoc, List.singleton_append,
    List.cons_append, List.nil_append]

/-- With an unsound charging descriptor, `Update` panics before any send. -/
theorem Update_of_desc_error (c : androidCollector) (d : CmdOutput) (ch : List Metric)
    (v : Float64 × Float64 × Float64) (e : String) (hg : c.GetStats d = .ok v)
    (he1 : c.batteryChargingDesc.err = some e) :
    c.Update d ch = ⟨.error (.mustNewConstMetric e), ch⟩ := by
  obtain ⟨v1, v2, v3⟩ := v
  unfold androidCollector.Update
  rw [hg]
  simp only [MustNewConstMetric_err _ _ _ _ e he1]

/-- A valid namespace gives three descriptors free of error. -/
theorem desc_err_none (ns : String) (lg : Logger) (hns : IsValidMetricName ns = true) :
    (NewAndroidCollector ns lg).1.batteryChargingDesc.err = none ∧
    (NewAndroidCollector ns lg).1.batteryLevelDesc.err = none ∧
    (NewAndroidCollector ns lg).1.batteryTempDesc.err = none := by
  obtain ⟨h1, h2, h3⟩ := desc_err_iff ns lg
  have h := IsValidMetricName_loop ns hns
  exact ⟨h1.mpr h, h2.mpr h, h3.mpr h⟩

/-- When the three expressions match, `GetStats` returns the values decoded from the
three captures. -/
theorem GetStats_of_match (c : androidCollector) (d : CmdOutput)
    (hc : batteryChargingRegex.FindStringSubmatch d.out ≠ [])
    (hl : batteryLevelRegex.FindStringSubmatch d.out ≠ [])
    (ht : batteryTempRegex.FindStringSubmatch d.out ≠ []) :
    ∃ w1 c1 w2 c2 w3 c3,
      batteryChargingRegex.FindStringSubmatch d.out = [w1, c1] ∧
      batteryLevelRegex.FindStringSubmatch d.out = [w2, c2] ∧
      batteryTempRegex.FindStringSubmatch d.out = [w3, c3] ∧
      c.GetStats d = .ok (if c1 = "true" then Float64.lit 1 1 else Float64.lit 0 1,
        Float64.ofInt (Atoi c2).1,
        Float64.div (Float64.ofInt (Atoi c3).1) (Float64.lit 10 1)) := by
  rcases FindStringSubmatch_cases batteryChargingRegex d.out with h1 | ⟨k1, -, -, h1⟩
  · exact absurd h1 hc
  rcases FindStringSubmatch_cases batteryLevelRegex d.out with h2 | ⟨k2, -, -, h2⟩
  · exact absurd h2 hl
  rcases FindStringSubmatch_cases batteryTempRegex d.out with h3 | ⟨k3, -, -, h3⟩
  · exact absurd h3 ht
  exact ⟨_, _, _, _, _, _, h1, h2, h3, GetStats_ok c d _ _ _ _ _ _ h1 h2 h3⟩

/-- Leftmost match on strings: with no match before it, the literal followed by the run
`tok` is what `FindStringSubmatch` returns. -/
theorem FindStringSubmatch_append (re : Regexp) (pre tok post : String)
    (hpre : re.FindStringSubmatch (pre ++ re.literal) = []) (hne : tok ≠ "")
    (htok : ∀ x ∈ tok.data, re.cls.mem x = true)
    (hpost : ∀ x, post.data.head? = some x → re.cls.mem x = false) :
    re.FindStringSubmatch (pre ++ re.literal ++ tok ++ post) = [re.literal ++ tok, tok] := by
  unfold Regexp.FindStringSubmatch at hpre ⊢
  rw [String.data_append] at hpre
  rw [String.data_append, String.data_append, String.data_append]
  have hne2 : tok.data ≠ [] := by
    intro h
    exact hne (String.ext h)
  exact find_append re pre.data tok.data post.data hpre hne2 htok hpost

/-- The function `Atoi` on a non-empty string of digits. -/
theorem Atoi_of_digits (num : String) (hne : num ≠ "")
    (hnum : ∀ x ∈ num.data, x.isDigit = true) :
    Atoi num =
      if decimalValue num.data < 2 ^ 63 then ((decimalValue num.data : Int), none)
      else (2 ^ 63 - 1, some ⟨"Atoi", num, .ErrRange⟩) := by
  have hne2 : num.data ≠ [] := by
    intro h
    exact hne (String.ext h)
  exact Atoi_digits num.data hne2 hnum

/-- Equal two-element lists have equal second elements. -/
theorem pair_snd_eq {w c a b : String} (h : [w, c] = [a, b]) : c = b := by
  obtain ⟨-, h⟩ := List.cons.inj h
  exact (List.cons.inj h).1

/-- The capture of an expression over `\d` is a non-empty string of digits. -/
theorem capture_is_digits (re : Regexp) (hcls : re.cls = .digit) (s w cap : String)
    (h : re.FindStringSubmatch s = [w, cap]) :
    cap ≠ "" ∧ ∀ x ∈ cap.data, x.isDigit = true := by
  rcases FindStringSubmatch_cases re s with h0 | ⟨k, hk, hmem, h1⟩
  · rw [h0] at h
    exact absurd h (by simp)
  · have hcap : cap = String.mk k := (pair_snd_eq (h1.symm.trans h)).symm
    subst hcap
    refine ⟨fun e => hk (congrArg String.data e), ?_⟩
    intro x hx
    have := hmem x hx
    rw [hcls] at this
    exact this

/-- The call `Update` appends to the channel what it pushes on an empty one, and ends
the same way. -/
theorem Update_frame (c : androidCollector) (d : CmdOutput) (ch : List Metric) :
    c.Update d ch = ⟨(c.Update d []).status, ch ++ (c.Update d []).ch⟩ := by
  unfold androidCollector.Update
  cases c.GetStats d with
  | error p => simp
  | ok v =>
    obtain ⟨v1, v2, v3⟩ := v
    simp only []
    cases MustNewConstMetric c.batteryChargingDesc .GaugeValue v1 [] with
    | error p => simp
    | ok m1 =>
      simp only []
      cases MustNewConstMetric c.batteryLevelDesc .GaugeValue v2 [] with
      | error p => simp
      | ok m2 =>
        simp only []
        cases MustNewConstMetric c.batteryTempDesc .GaugeValue v3 [] with
        | error p => simp
        | ok m3 => simp

/-- A text with a match is longer than the literal of the expression. -/
theorem find_length (re : Regexp) (u : List Char) (h : re.find u ≠ []) :
    re.literal.data.length < u.length := by
  induction u with
  | nil => exact absurd rfl h
  | cons a u ih =>
    cases hm : re.matchHere (a :: u) with
    | none =>
      have hu : re.find u ≠ [] := by
        intro e
        exact h ((find_eq_nil_cons re a u).mpr ⟨hm, e⟩)
      have := ih hu
      simp only [List.length_cons]
      omega
    | some cap =>
      obtain ⟨hne, -, hp, hcap⟩ := matchHere_some re _ _ hm
      have hle := hp.length_le
      by_contra hlt
      have hd : (a :: u).drop re.literal.data.length = [] :=
        List.drop_eq_nil_iff.mpr (by omega)
      rw [hd] at hcap
      exact hne (by simpa using hcap)

/-- The longest run of `p` at the head of `r` is unchanged when `r` is followed by a text
that does not start with `p`. -/
theorem takeWhile_append_head (p : Char → Bool) (r s : List Char)
    (hs : ∀ c, s.head? = some c → p c = false) :
    (r ++ s).takeWhile p = r.takeWhile p := by
  induction r with
  | nil =>
    cases s with
    | nil => rfl
    | cons x xs => simp [List.takeWhile, hs x rfl]
  | cons a r ih =>
    rw [List.cons_append, List.takeWhile_cons, List.takeWhile_cons, ih]

/-- An anchored match is unchanged when the text is followed by a text that does not
start with a class character. -/
theorem matchHere_append_some (re : Regexp) (u s cap : List Char)
    (h : re.matchHere u = some cap) (hs : ∀ c, s.head? = some c → re.cls.mem c = false) :
    re.matchHere (u ++ s) = some cap := by
  obtain ⟨-, -, hp, -⟩ := matchHere_some re _ _ h
  unfold Regexp.matchHere at h ⊢
  have hp1 : re.literal.data.isPrefixOf u = true := List.isPrefixOf_iff_prefix.mpr hp
  have hp2 : re.literal.data.isPrefixOf (u ++ s) = true :=
    List.isPrefixOf_iff_prefix.mpr (hp.trans (List.prefix_append u s))
  rw [if_pos hp1] at h
  rw [if_pos hp2, List.drop_append_of_le_length hp.length_le,
    takeWhile_append_head _ _ _ hs]
  exact h

/-- First occurrence: a text with a match keeps its leftmost match when it is followed by
a text that does not start with a class character. -/
theorem find_append_right (re : Regexp) (t s : List Char) (h : re.find t ≠ [])
    (hs : ∀ c, s.head? = some c → re.cls.mem c = false) :
    re.find (t ++ s) = re.find t := by
  induction t with
  | nil => exact absurd rfl h
  | cons a t ih =>
    rw [List.cons_append, Regexp.find, Regexp.find]
    cases hm : re.matchHere (a :: t) with
    | some cap =>
      have := matchHere_append_some re (a :: t) s cap hm hs
      rw [List.cons_append] at this
      rw [this]
    | none =>
      have ht : re.find t ≠ [] := by
        intro e
        exact h ((find_eq_nil_cons re a t).mpr ⟨hm, e⟩)
      have hlen := find_length re t ht
      have := matchHere_append_none re (a :: t) s
        (by simp only [List.length_cons]; omega) hm
      rw [List.cons_append] at this
      rw [this]
      exact ih ht

/-- First occurrence on strings: `FindStringSubmatch` is unchanged when a text with a
match is followed by a text that does not start with a class character. -/
theorem FindStringSubmatch_append_right (re : Regexp) (t s : String)
    (h : re.FindStringSubmatch t ≠ [])
    (hs : ∀ c, s.data.head? = some c → re.cls.mem c = false) :
    re.FindStringSubmatch (t ++ s) = re.FindStringSubmatch t := by
  unfold Regexp.FindStringSubmatch at h ⊢
  rw [String.data_append]
  exact find_append_right re t.data s.data h hs

/-- The fully-qualified name of an `android` metric for a non-empty namespace is the
namespace followed by `_android_` and the metric name. -/
theorem fqName_eq (ns name : String) (hns : ns ≠ "") (hname : name ≠ "") :
    BuildFQName ns "android" name = ns ++ ("_android_" ++ name) := by
  rw [BuildFQName_android ns name hns hname]
  apply String.ext
  rw [String.data_append, String.data_append, String.data_append, String.data_append,
    String.data_append, String.data_append]
  simp only [List.append_assoc]
  rfl

/-- Appending different texts to the same text gives different texts. -/
theorem append_ne_of_ne (ns a b : String) (h : a ≠ b) : ns ++ a ≠ ns ++ b := by
  intro e
  have := congrArg String.data e
  rw [String.data_append, String.data_append] at this
  exact h (String.ext (List.append_cancel_left this))

/-- Rounding keeps the sign: the result is a finite value or an infinity of that sign. -/
theorem round_cases (neg : Bool) (p q : Nat) :
    (∃ m e, Float64.round neg p q = .finite neg m e) ∨ Float64.round neg p q = .inf neg := by
  unfold Float64.round
  by_cases h0 : p = 0
  · rw [if_pos h0]
    exact Or.inl ⟨_, _, rfl⟩
  · rw [if_neg h0]
    simp only []
    split_ifs <;> first | exact Or.inr rfl | exact Or.inl ⟨_, _, rfl⟩

/-- The float of a non-negative integer is not negative. -/
theorem ofInt_nonneg (n : Int) (hn : 0 ≤ n) : (Float64.ofInt n).nonneg = true := by
  unfold Float64.ofInt
  have hd : decide (n < 0) = false := by
    rw [decide_eq_false_iff_not]
    omega
  rw [hd]
  rcases round_cases false n.natAbs 1 with ⟨m, e, h⟩ | h <;> rw [h] <;> rfl

/-- The float of a non-negative integer divided by `10.0` is not negative. -/
theorem ofInt_div_ten_nonneg (n : Int) (hn : 0 ≤ n) :
    (Float64.div (Float64.ofInt n) (Float64.lit 10 1)).nonneg = true := by
  unfold Float64.ofInt
  have hd : decide (n < 0) = false := by
    rw [decide_eq_false_iff_not]
    omega
  have hten : Float64.lit 10 1 = .finite false 5629499534213120 (-49) := by decide
  rw [hd, hten]
  rcases round_cases false n.natAbs 1 with ⟨m, e, h⟩ | h
  · rw [h]
    simp only [Float64.div]
    rw [if_neg (by decide)]
    rcases round_cases (xor false false) (m * 2 ^ (e - -49).toNat)
      (5629499534213120 * 2 ^ (-49 - e).toNat) with ⟨m2, e2, h2⟩ | h2 <;> rw [h2] <;> rfl
  · rw [h]
    rfl

/-- The integer that `Atoi` returns for the capture of an expression over `\d` is not
negative, with or without a conversion error. -/
theorem Atoi_capture_nonneg (re : Regexp) (hcls : re.cls = .digit) (s w cap : String)
    (h : re.FindStringSubmatch s = [w, cap]) : 0 ≤ (Atoi cap).1 := by
  obtain ⟨hne, hdig⟩ := capture_is_digits re hcls s w cap h
  rw [Atoi_of_digits cap hne hdig]
  split
  · exact Int.natCast_nonneg _
  · show (0 : Int) ≤ 2 ^ 63 - 1
    norm_num

/-- The state-passing `Update` leaves the collector and the package variable as they
were, and changes the channel and ends as the method does on that collector. -/
theorem Process_Update_eq (p : Process) (d : CmdOutput) :
    p.Update d = (⟨p.collector, p.labelNames, (p.collector.Update d p.ch).ch⟩,
      (p.collector.Update d p.ch).status) := by
  unfold Process.Update androidCollector.Update
  cases p.collector.GetStats d with
  | error e => rfl
  | ok v =>
    obtain ⟨v1, v2, v3⟩ := v
    simp only [Process.send]
    cases MustNewConstMetric p.collector.batteryChargingDesc .GaugeValue v1 [] with
    | error e => rfl
    | ok m1 =>
      simp only []
      cases MustNewConstMetric p.collector.batteryLevelDesc .GaugeValue v2 [] with
      | error e => rfl
      | ok m2 =>
        simp only []
        cases MustNewConstMetric p.collector.batteryTempDesc .GaugeValue v3 [] with
        | error e => rfl
        | ok m3 => rfl

/-! ## The claims -/

set_option maxRecDepth 20000

/-- C1: for every source text in which all three expressions match, `Update` of the
collector built for a valid namespace returns `nil` and pushes exactly three samples,
all gauges without label values, in the order charging, level, temperature, carrying
the three values decoded by `GetStats`. -/
theorem Update_pushes_three_gauges (namespace_ : String) (logger : Logger) (text : String)
    (err : Option ExecError) (ch : List Metric)
    (hns : IsValidMetricName namespace_ = true)
    (hc : batteryChargingRegex.FindStringSubmatch text ≠ [])
    (hl : batteryLevelRegex.FindStringSubmatch text ≠ [])
    (ht : batteryTempRegex.FindStringSubmatch text ≠ []) :
    ∃ charging level temp,
      (NewAndroidCollector namespace_ logger).1.GetStats ⟨text, err⟩
        = .ok (charging, level, temp) ∧
      (NewAndroidCollector namespace_ logger).1.Update ⟨text, err⟩ ch =
        ⟨.ok none, ch ++
          [⟨(NewAndroidCollector namespace_ logger).1.batteryChargingDesc,
              .GaugeValue, charging, []⟩,
           ⟨(NewAndroidCollector namespace_ logger).1.batteryLevelDesc,
              .GaugeValue, level, []⟩,
           ⟨(NewAndroidCollector namespace_ logger).1.batteryTempDesc,
              .GaugeValue, temp, []⟩]⟩ := by
  obtain ⟨w1, c1, w2, c2, w3, c3, -, -, -, hg⟩ :=
    GetStats_of_match (NewAndroidCollector namespace_ logger).1 ⟨text, err⟩ hc hl ht
  obtain ⟨e1, e2, e3⟩ := desc_err_none namespace_ logger hns
  obtain ⟨l1, l2, l3⟩ := desc_labels namespace_ logger
  exact ⟨_, _, _, hg, Update_of_GetStats_ok _ _ ch _ _ _ hg e1 e2 e3 l1 l2 l3⟩

/-- C1, the end-to-end example: with the namespace `node`, the text
`AC powered: true / level: 87 / temperature: 253` yields exactly the samples
charging `1.0`, level `87.0`, temperature `25.3`, in that order. -/
theorem Update_pushes_three_gauges_example :
    (NewAndroidCollector "node" ⟨0⟩).1.Update
        ⟨"AC powered: true\nlevel: 87\ntemperature: 253\n", none⟩ [] =
      ⟨.ok none,
        [⟨⟨"node_android_battery_charging", "Charging state.", [], none⟩,
            .GaugeValue, Float64.lit 1 1, []⟩,
         ⟨⟨"node_android_battery_level", "Level of charged battery.", [], none⟩,
            .GaugeValue, Float64.lit 87 1, []⟩,
         ⟨⟨"node_android_battery_temperature", "Temperature of battery.", [], none⟩,
            .GaugeValue, Float64.lit 253 10, []⟩]⟩ := by
  obtain ⟨charging, level, temp, hg, hu⟩ := Update_pushes_three_gauges "node" ⟨0⟩
    "AC powered: true\nlevel: 87\ntemperature: 253\n" none []
    (by decide) (by decide) (by decide) (by decide)
  have hv : (NewAndroidCollector "node" ⟨0⟩).1.GetStats
      ⟨"AC powered: true\nlevel: 87\ntemperature: 253\n", none⟩
      = .ok (Float64.lit 1 1, Float64.lit 87 1, Float64.lit 253 10) := by decide
  rw [hv] at hg
  injection hg with hg
  injection hg with h1 hg
  injection hg with h2 h3
  subst h1 h2 h3
  rw [hu]
  decide

/-- C2, counterexample: with the `level` line removed from the end-to-end text, the level
expression has no match and `Update` ends in the panic `index out of range [1] with
length 0`; it returns no error value at all, so no `ParseError` naming `level`. -/
theorem Update_missing_level_panics :
    batteryLevelRegex.FindStringSubmatch "AC powered: true\ntemperature: 253\n" = [] ∧
    ((NewAndroidCollector "node" ⟨0⟩).1.Update
        ⟨"AC powered: true\ntemperature: 253\n", none⟩ []).status
      = .error (.indexOutOfRange 1 0) ∧
    ¬ ∃ e, ((NewAndroidCollector "node" ⟨0⟩).1.Update
        ⟨"AC powered: true\ntemperature: 253\n", none⟩ []).status = .ok (some e) := by
  refine ⟨by decide, by decide, ?_⟩
  rintro ⟨e, he⟩
  have h : ((NewAndroidCollector "node" ⟨0⟩).1.Update
      ⟨"AC powered: true\ntemperature: 253\n", none⟩ []).status
      = .error (.indexOutOfRange 1 0) := by decide
  rw [h] at he
  exact absurd he (by simp)

/-- C2, amended: for every source text from which at least one of the three expected
matches is absent, `Update` pushes no sample (the channel is left as it was, so no
partial set is emitted) and returns no error value. -/
theorem Update_missing_match_pushes_nothing (c : androidCollector) (text : String)
    (err : Option ExecError) (ch : List Metric)
    (h : batteryChargingRegex.FindStringSubmatch text = [] ∨
      batteryLevelRegex.FindStringSubmatch text = [] ∨
      batteryTempRegex.FindStringSubmatch text = []) :
    (c.Update ⟨text, err⟩ ch).ch = ch ∧
      ∀ e, (c.Update ⟨text, err⟩ ch).status ≠ .ok (some e) := by
  have hu := Update_of_GetStats_error c ⟨text, err⟩ ch _ (GetStats_panic c ⟨text, err⟩ h)
  rw [hu]
  exact ⟨rfl, fun e he => absurd he (by simp)⟩

/-- C2, amended, on the end-to-end text without its `level` line: nothing is pushed. -/
theorem Update_missing_match_pushes_nothing_example :
    batteryLevelRegex.FindStringSubmatch "AC powered: true\ntemperature: 253\n" = [] ∧
    ((NewAndroidCollector "node" ⟨0⟩).1.Update
        ⟨"AC powered: true\ntemperature: 253\n", none⟩ []).ch = [] :=
  ⟨by decide, (Update_missing_match_pushes_nothing (NewAndroidCollector "node" ⟨0⟩).1
    "AC powered: true\ntemperature: 253\n" none [] (Or.inr (Or.inl (by decide)))).1⟩

/-- C3, counterexample: the command exits with status 1 after printing the end-to-end
text; `Update` returns `nil` (no `SourceUnavailable`) and pushes three samples. -/
theorem Update_exit_error_still_pushes :
    (NewAndroidCollector "node" ⟨0⟩).1.Update
        ⟨"AC powered: true\nlevel: 87\ntemperature: 253\n", some (.exitError 1)⟩ [] =
      ⟨.ok none,
        [⟨⟨"node_android_battery_charging", "Charging state.", [], none⟩,
            .GaugeValue, Float64.lit 1 1, []⟩,
         ⟨⟨"node_android_battery_level", "Level of charged battery.", [], none⟩,
            .GaugeValue, Float64.lit 87 1, []⟩,
         ⟨⟨"node_android_battery_temperature", "Temperature of battery.", [], none⟩,
            .GaugeValue, Float64.lit 253 10, []⟩]⟩ := by
  decide

/-- C3, amended: `Update` discards the error value of the command.  For every failure
outcome whose captured text matches all three expressions it returns `nil` and pushes
the three samples decoded from the captured text, exactly as without the failure. -/
theorem Update_discards_source_failure (namespace_ : String) (logger : Logger)
    (text : String) (e : ExecError) (ch : List Metric)
    (hns : IsValidMetricName namespace_ = true)
    (hc : batteryChargingRegex.FindStringSubmatch text ≠ [])
    (hl : batteryLevelRegex.FindStringSubmatch text ≠ [])
    (ht : batteryTempRegex.FindStringSubmatch text ≠ []) :
    ((NewAndroidCollector namespace_ logger).1.Update ⟨text, some e⟩ ch).status = .ok none ∧
    (∃ m1 m2 m3, ((NewAndroidCollector namespace_ logger).1.Update ⟨text, some e⟩ ch).ch
      = ch ++ [m1, m2, m3]) ∧
    (NewAndroidCollector namespace_ logger).1.Update ⟨text, some e⟩ ch
      = (NewAndroidCollector namespace_ logger).1.Update ⟨text, none⟩ ch := by
  obtain ⟨w1, c1, w2, c2, w3, c3, -, -, -, hg⟩ :=
    GetStats_of_match (NewAndroidCollector namespace_ logger).1 ⟨text, some e⟩ hc hl ht
  obtain ⟨e1, e2, e3⟩ := desc_err_none namespace_ logger hns
  obtain ⟨l1, l2, l3⟩ := desc_labels namespace_ logger
  have hu := Update_of_GetStats_ok _ _ ch _ _ _ hg e1 e2 e3 l1 l2 l3
  rw [hu]
  exact ⟨rfl, ⟨_, _, _, rfl⟩, hu.symm ▸ rfl⟩

/-- C3, amended, on the end-to-end text printed by a command that exits with status 1. -/
theorem Update_discards_source_failure_example :
    ((NewAndroidCollector "node" ⟨0⟩).1.Update
      ⟨"AC powered: true\nlevel: 87\ntemperature: 253\n", some (.exitError 1)⟩ []).status
        = .ok none :=
  (Update_discards_source_failure "node" ⟨0⟩
    "AC powered: true\nlevel: 87\ntemperature: 253\n" (.exitError 1) []
    (by decide) (by decide) (by decide) (by decide)).1

/-- C4, counterexample: the text contains the substring `AC powered: true` and the level
and temperature expressions match, yet the charging value is `0.0`: the capture is the
whole word `true1`. -/
theorem charging_substring_true_is_not_enough :
    "AC powered: true".data <:+: "AC powered: true1\nlevel: 87\ntemperature: 253\n".data ∧
    batteryLevelRegex.FindStringSubmatch
      "AC powered: true1\nlevel: 87\ntemperature: 253\n" ≠ [] ∧
    batteryTempRegex.FindStringSubmatch
      "AC powered: true1\nlevel: 87\ntemperature: 253\n" ≠ [] ∧
    (NewAndroidCollector "node" ⟨0⟩).1.GetStats
        ⟨"AC powered: true1\nlevel: 87\ntemperature: 253\n", none⟩
      = .ok (Float64.lit 0 1, Float64.lit 87 1, Float64.lit 253 10) ∧
    Float64.lit 0 1 ≠ Float64.lit 1 1 :=
  ⟨⟨[], "1\nlevel: 87\ntemperature: 253\n".data, rfl⟩, by decide, by decide, by decide,
    by decide⟩

/-- C4, amended: when the leftmost match of the charging expression is
`AC powered: ` followed by the word `tok` (no earlier match, and the character after
`tok` is not a word character), and the other two expressions match, the charging value
is `1.0` if `tok` is `true` and `0.0` for `false` or any other word. -/
theorem charging_of_first_token (c : androidCollector) (pre tok post : String)
    (err : Option ExecError)
    (hpre : batteryChargingRegex.FindStringSubmatch (pre ++ "AC powered: ") = [])
    (hne : tok ≠ "") (htok : ∀ x ∈ tok.data, PerlClass.word.mem x = true)
    (hpost : ∀ x, post.data.head? = some x → PerlClass.word.mem x = false)
    (hl : batteryLevelRegex.FindStringSubmatch (pre ++ "AC powered: " ++ tok ++ post) ≠ [])
    (ht : batteryTempRegex.FindStringSubmatch (pre ++ "AC powered: " ++ tok ++ post) ≠ []) :
    ∃ charging level temp,
      c.GetStats ⟨pre ++ "AC powered: " ++ tok ++ post, err⟩ = .ok (charging, level, temp) ∧
      (tok = "true" → charging = Float64.lit 1 1) ∧
      (tok ≠ "true" → charging = Float64.lit 0 1) := by
  have h1 := FindStringSubmatch_append batteryChargingRegex pre tok post hpre hne htok hpost
  have h1' : batteryChargingRegex.FindStringSubmatch (pre ++ "AC powered: " ++ tok ++ post)
      = ["AC powered: " ++ tok, tok] := h1
  obtain ⟨w1, c1, w2, c2, w3, c3, g1, -, -, hg⟩ :=
    GetStats_of_match c ⟨pre ++ "AC powered: " ++ tok ++ post, err⟩
      (by rw [h1']; simp) hl ht
  have hc1 : c1 = tok := by
    obtain ⟨-, h⟩ := List.cons.inj (g1.symm.trans h1')
    exact (List.cons.inj h).1
  subst hc1
  refine ⟨_, _, _, hg, ?_, ?_⟩
  · intro h
    rw [if_pos h]
  · intro h
    rw [if_neg h]

/-- C4, amended, on the end-to-end text: the token `true` gives the charging value `1.0`. -/
theorem charging_of_first_token_example :
    ∃ level temp, (NewAndroidCollector "node" ⟨0⟩).1.GetStats
        ⟨"AC powered: true\nlevel: 87\ntemperature: 253\n", none⟩
      = .ok (Float64.lit 1 1, level, temp) := by
  obtain ⟨charging, level, temp, hg, h1, -⟩ :=
    charging_of_first_token (NewAndroidCollector "node" ⟨0⟩).1 "" "true"
      "\nlevel: 87\ntemperature: 253\n" none (by decide) (by decide) (by decide)
      (by decide) (by decide) (by decide)
  rw [h1 rfl] at hg
  exact ⟨level, temp, hg⟩

/-- C5, counterexample: for `level: 99999999999999999999` the level value is the float of
`2 ^ 63 - 1`, which differs from the float of the number written in the text. -/
theorem level_of_huge_number_differs :
    decimalValue "99999999999999999999".data = 99999999999999999999 ∧
    (NewAndroidCollector "node" ⟨0⟩).1.GetStats
        ⟨"AC powered: true\nlevel: 99999999999999999999\ntemperature: 253\n", none⟩
      = .ok (Float64.lit 1 1, Float64.ofInt (2 ^ 63 - 1), Float64.lit 253 10) ∧
    Float64.ofInt (2 ^ 63 - 1) ≠ Float64.ofInt 99999999999999999999 := by
  refine ⟨by decide, by decide, by decide⟩

/-- C5, amended: when the leftmost match of the level expression is `level: ` followed by
the digits `num` (no earlier match, and the character after `num` is not a digit), the
other two expressions match, and the number `N` denoted by `num` is at most `2 ^ 63 - 1`,
the level value is `float64(N)`: the float nearest to `N`, and `N` itself when
`N < 2 ^ 53`. -/
theorem level_of_first_number (c : androidCollector) (pre num post : String)
    (err : Option ExecError)
    (hpre : batteryLevelRegex.FindStringSubmatch (pre ++ "level: ") = [])
    (hne : num ≠ "") (hnum : ∀ x ∈ num.data, x.isDigit = true)
    (hpost : ∀ x, post.data.head? = some x → x.isDigit = false)
    (hrange : decimalValue num.data ≤ 2 ^ 63 - 1)
    (hc : batteryChargingRegex.FindStringSubmatch (pre ++ "level: " ++ num ++ post) ≠ [])
    (ht : batteryTempRegex.FindStringSubmatch (pre ++ "level: " ++ num ++ post) ≠ []) :
    (∃ charging temp,
      c.GetStats ⟨pre ++ "level: " ++ num ++ post, err⟩
        = .ok (charging, Float64.ofInt (decimalValue num.data), temp)) ∧
    (decimalValue num.data < 2 ^ 53 →
      (Float64.ofInt (decimalValue num.data)).toRat
        = some ((decimalValue num.data : Nat) : ℚ)) := by
  have h2 : batteryLevelRegex.FindStringSubmatch (pre ++ "level: " ++ num ++ post)
      = ["level: " ++ num, num] :=
    FindStringSubmatch_append batteryLevelRegex pre num post hpre hne hnum hpost
  obtain ⟨w1, c1, w2, c2, w3, c3, -, g2, -, hg⟩ :=
    GetStats_of_match c ⟨pre ++ "level: " ++ num ++ post, err⟩ hc (by rw [h2]; simp) ht
  have hc2 : c2 = num := pair_snd_eq (g2.symm.trans h2)
  subst hc2
  have hlt : decimalValue c2.data < 2 ^ 63 := by omega
  rw [Atoi_of_digits c2 hne hnum, if_pos hlt] at hg
  refine ⟨⟨_, _, hg⟩, fun h53 => ?_⟩
  have := ofInt_exact (decimalValue c2.data : Int) (by simpa using h53)
  simpa using this

/-- C5, amended, on the end-to-end text: `level: 87` gives the level value `87.0`. -/
theorem level_of_first_number_example :
    ∃ charging temp, (NewAndroidCollector "node" ⟨0⟩).1.GetStats
        ⟨"AC powered: true\nlevel: 87\ntemperature: 253\n", none⟩
      = .ok (charging, Float64.ofInt 87, temp) :=
  (level_of_first_number (NewAndroidCollector "node" ⟨0⟩).1 "AC powered: true\n" "87"
    "\ntemperature: 253\n" none (by decide) (by decide) (by decide) (by decide)
    (by decide) (by decide) (by decide)).1

/-- C6, counterexample: for `temperature: 99999999999999999999` the temperature value is
the float of `2 ^ 63 - 1` divided by 10, not the written number divided by 10. -/
theorem temperature_of_huge_number_differs :
    decimalValue "99999999999999999999".data = 99999999999999999999 ∧
    (NewAndroidCollector "node" ⟨0⟩).1.GetStats
        ⟨"AC powered: true\nlevel: 87\ntemperature: 99999999999999999999\n", none⟩
      = .ok (Float64.lit 1 1, Float64.lit 87 1,
          Float64.div (Float64.ofInt (2 ^ 63 - 1)) (Float64.lit 10 1)) ∧
    Float64.div (Float64.ofInt (2 ^ 63 - 1)) (Float64.lit 10 1)
      ≠ Float64.div (Float64.ofInt 99999999999999999999) (Float64.lit 10 1) := by
  refine ⟨by decide, by decide, by decide⟩

/-- C6, amended: when the leftmost match of the temperature expression is `temperature: `
followed by the digits `num` (no earlier match, and the character after `num` is not a
digit), the other two expressions match, and the number `N` denoted by `num` is at most
`2 ^ 63 - 1`, the temperature value is `float64(N) / 10`. -/
theorem temperature_of_first_number (c : androidCollector) (pre num post : String)
    (err : Option ExecError)
    (hpre : batteryTempRegex.FindStringSubmatch (pre ++ "temperature: ") = [])
    (hne : num ≠ "") (hnum : ∀ x ∈ num.data, x.isDigit = true)
    (hpost : ∀ x, post.data.head? = some x → x.isDigit = false)
    (hrange : decimalValue num.data ≤ 2 ^ 63 - 1)
    (hc : batteryChargingRegex.FindStringSubmatch
      (pre ++ "temperature: " ++ num ++ post) ≠ [])
    (hl : batteryLevelRegex.FindStringSubmatch
      (pre ++ "temperature: " ++ num ++ post) ≠ []) :
    ∃ charging level,
      c.GetStats ⟨pre ++ "temperature: " ++ num ++ post, err⟩
        = .ok (charging, level,
            Float64.div (Float64.ofInt (decimalValue num.data)) (Float64.lit 10 1)) := by
  have h3 : batteryTempRegex.FindStringSubmatch (pre ++ "temperature: " ++ num ++ post)
      = ["temperature: " ++ num, num] :=
    FindStringSubmatch_append batteryTempRegex pre num post hpre hne hnum hpost
  obtain ⟨w1, c1, w2, c2, w3, c3, -, -, g3, hg⟩ :=
    GetStats_of_match c ⟨pre ++ "temperature: " ++ num ++ post, err⟩ hc hl
      (by rw [h3]; simp)
  have hc3 : c3 = num := pair_snd_eq (g3.symm.trans h3)
  subst hc3
  have hlt : decimalValue c3.data < 2 ^ 63 := by omega
  rw [Atoi_of_digits c3 hne hnum, if_pos hlt] at hg
  exact ⟨_, _, hg⟩

/-- C6, amended, on the end-to-end text: `temperature: 253` gives the value `25.3`. -/
theorem temperature_of_first_number_example :
    ∃ charging level, (NewAndroidCollector "node" ⟨0⟩).1.GetStats
        ⟨"AC powered: true\nlevel: 87\ntemperature: 253\n", none⟩
      = .ok (charging, level, Float64.lit 253 10) := by
  obtain ⟨charging, level, hg⟩ :=
    temperature_of_first_number (NewAndroidCollector "node" ⟨0⟩).1
      "AC powered: true\nlevel: 87\n" "253" "\n" none (by decide) (by decide) (by decide)
      (by decide) (by decide) (by decide) (by decide)
  have hv : Float64.div (Float64.ofInt (decimalValue "253".data)) (Float64.lit 10 1)
      = Float64.lit 253 10 := by decide
  rw [hv] at hg
  exact ⟨charging, level, hg⟩

/-- C7, counterexample: for `level: 99999999999999999999` the conversion reports a range
error, yet `Update` returns `nil` and pushes a level sample (the float of `2 ^ 63 - 1`);
no `DecodeError` is returned. -/
theorem Update_level_overflow_returns_nil :
    (Atoi "99999999999999999999").2 = some ⟨"Atoi", "99999999999999999999", .ErrRange⟩ ∧
    (NewAndroidCollector "node" ⟨0⟩).1.Update
        ⟨"AC powered: true\nlevel: 99999999999999999999\ntemperature: 253\n", none⟩ [] =
      ⟨.ok none,
        [⟨⟨"node_android_battery_charging", "Charging state.", [], none⟩,
            .GaugeValue, Float64.lit 1 1, []⟩,
         ⟨⟨"node_android_battery_level", "Level of charged battery.", [], none⟩,
            .GaugeValue, Float64.ofInt (2 ^ 63 - 1), []⟩,
         ⟨⟨"node_android_battery_temperature", "Temperature of battery.", [], none⟩,
            .GaugeValue, Float64.lit 253 10, []⟩]⟩ := by
  refine ⟨by decide, by decide⟩

/-- C7, amended: for every source text whose matched level capture makes `Atoi` report an
error, `Update` discards that error: it returns `nil` and pushes the three samples, the
level sample carrying the float of `2 ^ 63 - 1`. -/
theorem Update_discards_level_conversion_error (namespace_ : String) (logger : Logger)
    (text : String) (err : Option ExecError) (ch : List Metric) (w cap : String)
    (hns : IsValidMetricName namespace_ = true)
    (hc : batteryChargingRegex.FindStringSubmatch text ≠ [])
    (hl : batteryLevelRegex.FindStringSubmatch text = [w, cap])
    (ht : batteryTempRegex.FindStringSubmatch text ≠ [])
    (herr : (Atoi cap).2 ≠ none) :
    ∃ charging temp,
      (NewAndroidCollector namespace_ logger).1.Update ⟨text, err⟩ ch =
        ⟨.ok none, ch ++
          [⟨(NewAndroidCollector namespace_ logger).1.batteryChargingDesc,
              .GaugeValue, charging, []⟩,
           ⟨(NewAndroidCollector namespace_ logger).1.batteryLevelDesc,
              .GaugeValue, Float64.ofInt (2 ^ 63 - 1), []⟩,
           ⟨(NewAndroidCollector namespace_ logger).1.batteryTempDesc,
              .GaugeValue, temp, []⟩]⟩ := by
  obtain ⟨w1, c1, w2, c2, w3, c3, -, g2, -, hg⟩ :=
    GetStats_of_match (NewAndroidCollector namespace_ logger).1 ⟨text, err⟩ hc
      (by rw [hl]; simp) ht
  have hc2 : c2 = cap := pair_snd_eq (g2.symm.trans hl)
  subst hc2
  obtain ⟨hne, hdig⟩ := capture_is_digits batteryLevelRegex rfl text w c2 hl
  have hA := Atoi_of_digits c2 hne hdig
  have hval : (Atoi c2).1 = 2 ^ 63 - 1 := by
    by_cases hlt : decimalValue c2.data < 2 ^ 63
    · rw [hA, if_pos hlt] at herr
      exact absurd rfl herr
    · rw [hA, if_neg hlt]
  rw [hval] at hg
  obtain ⟨e1, e2, e3⟩ := desc_err_none namespace_ logger hns
  obtain ⟨l1, l2, l3⟩ := desc_labels namespace_ logger
  exact ⟨_, _, Update_of_GetStats_ok _ _ ch _ _ _ hg e1 e2 e3 l1 l2 l3⟩

/-- C7, amended, on the text with `level: 99999999999999999999`: `Update` returns `nil`. -/
theorem Update_discards_level_conversion_error_example :
    ((NewAndroidCollector "node" ⟨0⟩).1.Update
      ⟨"AC powered: true\nlevel: 99999999999999999999\ntemperature: 253\n", none⟩
      []).status = .ok none := by
  obtain ⟨charging, temp, hu⟩ := Update_discards_level_conversion_error "node" ⟨0⟩
    "AC powered: true\nlevel: 99999999999999999999\ntemperature: 253\n" none []
    "level: 99999999999999999999" "99999999999999999999"
    (by decide) (by decide) (by decide) (by decide) (by decide)
  rw [hu]

/-- C8: for every namespace, every outcome of the command and every channel content, one
call of `Update` pushes either no sample or exactly three; it pushes three exactly when
it returns `nil`, and on every other path (a panic) the channel is left as it was. -/
theorem Update_all_or_nothing (namespace_ : String) (logger : Logger) (dumpsys : CmdOutput)
    (ch : List Metric) :
    (((NewAndroidCollector namespace_ logger).1.Update dumpsys ch).ch = ch ∨
      ∃ m1 m2 m3, ((NewAndroidCollector namespace_ logger).1.Update dumpsys ch).ch
        = ch ++ [m1, m2, m3]) ∧
    (((NewAndroidCollector namespace_ logger).1.Update dumpsys ch).status ≠ .ok none →
      ((NewAndroidCollector namespace_ logger).1.Update dumpsys ch).ch = ch) ∧
    (((NewAndroidCollector namespace_ logger).1.Update dumpsys ch).status = .ok none →
      ∃ m1 m2 m3, ((NewAndroidCollector namespace_ logger).1.Update dumpsys ch).ch
        = ch ++ [m1, m2, m3]) := by
  cases hg : (NewAndroidCollector namespace_ logger).1.GetStats dumpsys with
  | error p =>
    rw [Update_of_GetStats_error _ _ ch p hg]
    exact ⟨Or.inl rfl, fun _ => rfl, fun h => absurd h (by simp)⟩
  | ok v =>
    obtain ⟨i1, i2, i3⟩ := desc_err_iff namespace_ logger
    by_cases hv : IsValidMetricName.loop namespace_.data 0 = true
    · obtain ⟨v1, v2, v3⟩ := v
      obtain ⟨l1, l2, l3⟩ := desc_labels namespace_ logger
      rw [Update_of_GetStats_ok _ _ ch _ _ _ hg (i1.mpr hv) (i2.mpr hv) (i3.mpr hv) l1 l2 l3]
      exact ⟨Or.inr ⟨_, _, _, rfl⟩, fun h => absurd rfl h, fun _ => ⟨_, _, _, rfl⟩⟩
    · cases he : (NewAndroidCollector namespace_ logger).1.batteryChargingDesc.err with
      | none => exact absurd (i1.mp he) hv
      | some e =>
        rw [Update_of_desc_error _ _ ch v e hg he]
        exact ⟨Or.inl rfl, fun _ => rfl, fun h => absurd h (by simp)⟩

/-- Two calls of the method on one collector against the same text, whatever the error
values of the command and whatever the channel already holds, end the same way and push
the same sequence of samples. -/
theorem Update_deterministic (c : androidCollector) (text : String)
    (e1 e2 : Option ExecError) (ch1 ch2 : List Metric) :
    (c.Update ⟨text, e1⟩ ch1).status = (c.Update ⟨text, e2⟩ ch2).status ∧
    ∃ pushed, (c.Update ⟨text, e1⟩ ch1).ch = ch1 ++ pushed ∧
      (c.Update ⟨text, e2⟩ ch2).ch = ch2 ++ pushed := by
  have h12 : c.Update ⟨text, e1⟩ [] = c.Update ⟨text, e2⟩ [] := rfl
  rw [Update_frame c ⟨text, e1⟩ ch1, Update_frame c ⟨text, e2⟩ ch2, h12]
  exact ⟨rfl, _, rfl, rfl⟩

/-- C9: determinism and idempotence.  A call of `Update` carries no state to the next
one: it leaves the collector object and the package variable as they were, and only
appends to the channel.  A second call on the same collector against the same text, made
in the state the first one left, ends the same way (same return value) and pushes the same
sequence of samples (same descriptors, kinds and values); so does a call from any other
state holding that collector: the outcome is a function of the text alone. -/
theorem Update_consecutive_calls (p : Process) (text : String)
    (e1 e2 : Option ExecError) :
    (p.Update ⟨text, e1⟩).1.collector = p.collector ∧
    (p.Update ⟨text, e1⟩).1.labelNames = p.labelNames ∧
    ((p.Update ⟨text, e1⟩).1.Update ⟨text, e2⟩).1.collector = p.collector ∧
    ((p.Update ⟨text, e1⟩).1.Update ⟨text, e2⟩).1.labelNames = p.labelNames ∧
    ((p.Update ⟨text, e1⟩).1.Update ⟨text, e2⟩).2 = (p.Update ⟨text, e1⟩).2 ∧
    ∃ pushed,
      (p.Update ⟨text, e1⟩).1.ch = p.ch ++ pushed ∧
      ((p.Update ⟨text, e1⟩).1.Update ⟨text, e2⟩).1.ch = (p.ch ++ pushed) ++ pushed ∧
      ∀ labelNames ch,
        ((Process.mk p.collector labelNames ch).Update ⟨text, e2⟩).1.ch = ch ++ pushed ∧
        ((Process.mk p.collector labelNames ch).Update ⟨text, e2⟩).2
          = (p.Update ⟨text, e1⟩).2 := by
  have hU : ∀ (l : List String) (ch : List Metric) (e : Option ExecError),
      (Process.mk p.collector l ch).Update ⟨text, e⟩
        = (⟨p.collector, l, ch ++ (p.collector.Update ⟨text, e1⟩ []).ch⟩,
            (p.collector.Update ⟨text, e1⟩ []).status) := by
    intro l ch e
    have h12 : p.collector.Update ⟨text, e⟩ [] = p.collector.Update ⟨text, e1⟩ [] := rfl
    rw [Process_Update_eq, Update_frame p.collector ⟨text, e⟩ ch, h12]
  have h1 : p.Update ⟨text, e1⟩
      = (⟨p.collector, p.labelNames, p.ch ++ (p.collector.Update ⟨text, e1⟩ []).ch⟩,
          (p.collector.Update ⟨text, e1⟩ []).status) := hU p.labelNames p.ch e1
  rw [h1]
  have h2 := hU p.labelNames (p.ch ++ (p.collector.Update ⟨text, e1⟩ []).ch) e2
  refine ⟨rfl, rfl, ?_, ?_, ?_, (p.collector.Update ⟨text, e1⟩ []).ch, rfl, ?_, ?_⟩
  · exact congrArg (fun x => x.1.collector) h2
  · exact congrArg (fun x => x.1.labelNames) h2
  · exact congrArg (fun x => x.2) h2
  · exact congrArg (fun x => x.1.ch) h2
  · intro l ch
    have h3 := hU l ch e2
    exact ⟨congrArg (fun x => x.1.ch) h3, congrArg (fun x => x.2) h3⟩

/-- C9, an example: two consecutive calls on the `node` collector against the end-to-end
text both return `nil`, and the channel then holds the same three values twice. -/
theorem Update_consecutive_calls_example :
    ((Process.mk (NewAndroidCollector "node" ⟨0⟩).1 [] []).Update
        ⟨"AC powered: true\nlevel: 87\ntemperature: 253\n", none⟩).2 = .ok none ∧
    (((Process.mk (NewAndroidCollector "node" ⟨0⟩).1 [] []).Update
        ⟨"AC powered: true\nlevel: 87\ntemperature: 253\n", none⟩).1.Update
        ⟨"AC powered: true\nlevel: 87\ntemperature: 253\n", none⟩).2 = .ok none ∧
    ((((Process.mk (NewAndroidCollector "node" ⟨0⟩).1 [] []).Update
        ⟨"AC powered: true\nlevel: 87\ntemperature: 253\n", none⟩).1.Update
        ⟨"AC powered: true\nlevel: 87\ntemperature: 253\n", none⟩).1.ch.map
          (fun m => (m.desc.fqName, m.value)))
      = [("node_android_battery_charging", Float64.lit 1 1),
         ("node_android_battery_level", Float64.lit 87 1),
         ("node_android_battery_temperature", Float64.lit 253 10),
         ("node_android_battery_charging", Float64.lit 1 1),
         ("node_android_battery_level", Float64.lit 87 1),
         ("node_android_battery_temperature", Float64.lit 253 10)] := by
  have h := (Update_consecutive_calls (Process.mk (NewAndroidCollector "node" ⟨0⟩).1 [] [])
    "AC powered: true\nlevel: 87\ntemperature: 253\n" none none).2.2.2.2.1
  have h1 : ((Process.mk (NewAndroidCollector "node" ⟨0⟩).1 [] []).Update
      ⟨"AC powered: true\nlevel: 87\ntemperature: 253\n", none⟩).2 = .ok none := by decide
  refine ⟨h1, h.trans h1, by decide⟩

/-- C10: for every source text in which all three expressions match, the charging value is
`1.0` if and only if the text captured by the leftmost match of the charging expression
is exactly `true`, and `0.0` otherwise; the charging decode never fails. -/
theorem charging_decode_rule (c : androidCollector) (text : String)
    (err : Option ExecError)
    (hc : batteryChargingRegex.FindStringSubmatch text ≠ [])
    (hl : batteryLevelRegex.FindStringSubmatch text ≠ [])
    (ht : batteryTempRegex.FindStringSubmatch text ≠ []) :
    ∃ whole cap charging level temp,
      batteryChargingRegex.FindStringSubmatch text = [whole, cap] ∧
      c.GetStats ⟨text, err⟩ = .ok (charging, level, temp) ∧
      (charging = Float64.lit 1 1 ↔ cap = "true") ∧
      (cap ≠ "true" → charging = Float64.lit 0 1) := by
  obtain ⟨w1, c1, w2, c2, w3, c3, g1, -, -, hg⟩ :=
    GetStats_of_match c ⟨text, err⟩ hc hl ht
  refine ⟨w1, c1, _, _, _, g1, hg, ?_, ?_⟩
  · by_cases h : c1 = "true"
    · rw [if_pos h]
      exact ⟨fun _ => h, fun _ => rfl⟩
    · rw [if_neg h]
      exact ⟨fun e => absurd e (by decide), fun e => absurd e h⟩
  · intro h
    rw [if_neg h]

/-- C10, the examples: the captures `True`, `TRUE`, `true1` and `false` all give the
charging value `0.0`, and `true` gives `1.0`. -/
theorem charging_decode_rule_example :
    (∃ level temp, (NewAndroidCollector "node" ⟨0⟩).1.GetStats
        ⟨"AC powered: True\nlevel: 87\ntemperature: 253\n", none⟩
      = .ok (Float64.lit 0 1, level, temp)) ∧
    (NewAndroidCollector "node" ⟨0⟩).1.GetStats
        ⟨"AC powered: TRUE\nlevel: 87\ntemperature: 253\n", none⟩
      = .ok (Float64.lit 0 1, Float64.lit 87 1, Float64.lit 253 10) ∧
    (NewAndroidCollector "node" ⟨0⟩).1.GetStats
        ⟨"AC powered: true1\nlevel: 87\ntemperature: 253\n", none⟩
      = .ok (Float64.lit 0 1, Float64.lit 87 1, Float64.lit 253 10) ∧
    (NewAndroidCollector "node" ⟨0⟩).1.GetStats
        ⟨"AC powered: false\nlevel: 87\ntemperature: 253\n", none⟩
      = .ok (Float64.lit 0 1, Float64.lit 87 1, Float64.lit 253 10) ∧
    (NewAndroidCollector "node" ⟨0⟩).1.GetStats
        ⟨"AC powered: true\nlevel: 87\ntemperature: 253\n", none⟩
      = .ok (Float64.lit 1 1, Float64.lit 87 1, Float64.lit 253 10) := by
  refine ⟨?_, by decide, by decide, by decide, by decide⟩
  obtain ⟨whole, cap, charging, level, temp, g1, hg, -, h0⟩ :=
    charging_decode_rule (NewAndroidCollector "node" ⟨0⟩).1
      "AC powered: True\nlevel: 87\ntemperature: 253\n" none
      (by decide) (by decide) (by decide)
  have hcap : batteryChargingRegex.FindStringSubmatch
      "AC powered: True\nlevel: 87\ntemperature: 253\n" = ["AC powered: True", "True"] := by
    decide
  have hc : cap = "True" := pair_snd_eq (hcap.symm.trans g1).symm
  subst hc
  rw [h0 (by decide)] at hg
  exact ⟨level, temp, hg⟩

/-- C11: first-occurrence semantics.  For every source text `t` in which all three
expressions match and every suffix `s` that begins with a newline, each expression has
the same leftmost match in `t ++ s` as in `t`, so `GetStats` returns the same values:
later occurrences in `s` never change the result. -/
theorem GetStats_first_occurrence (c : androidCollector) (t s : String)
    (err : Option ExecError)
    (hc : batteryChargingRegex.FindStringSubmatch t ≠ [])
    (hl : batteryLevelRegex.FindStringSubmatch t ≠ [])
    (ht : batteryTempRegex.FindStringSubmatch t ≠ [])
    (hs : s.data.head? = some '\n') :
    batteryChargingRegex.FindStringSubmatch (t ++ s)
      = batteryChargingRegex.FindStringSubmatch t ∧
    batteryLevelRegex.FindStringSubmatch (t ++ s)
      = batteryLevelRegex.FindStringSubmatch t ∧
    batteryTempRegex.FindStringSubmatch (t ++ s)
      = batteryTempRegex.FindStringSubmatch t ∧
    c.GetStats ⟨t ++ s, err⟩ = c.GetStats ⟨t, err⟩ := by
  have hw : ∀ x, s.data.head? = some x → PerlClass.word.mem x = false := by
    intro x hx
    rw [hs] at hx
    injection hx with hx
    subst hx
    decide
  have hd : ∀ x, s.data.head? = some x → PerlClass.digit.mem x = false := by
    intro x hx
    rw [hs] at hx
    injection hx with hx
    subst hx
    decide
  have h1 := FindStringSubmatch_append_right batteryChargingRegex t s hc hw
  have h2 := FindStringSubmatch_append_right batteryLevelRegex t s hl hd
  have h3 := FindStringSubmatch_append_right batteryTempRegex t s ht hd
  refine ⟨h1, h2, h3, ?_⟩
  unfold androidCollector.GetStats
  simp only [h1, h2, h3]

/-- C11, an example: the end-to-end text followed by a second block of lines with other
values still decodes to charging `1.0`, level `87.0`, temperature `25.3`. -/
theorem GetStats_first_occurrence_example :
    (NewAndroidCollector "node" ⟨0⟩).1.GetStats
        ⟨"AC powered: true\nlevel: 87\ntemperature: 253"
          ++ "\nAC powered: false\nlevel: 1\ntemperature: 7\n", none⟩
      = .ok (Float64.lit 1 1, Float64.lit 87 1, Float64.lit 253 10) := by
  have h := (GetStats_first_occurrence (NewAndroidCollector "node" ⟨0⟩).1
    "AC powered: true\nlevel: 87\ntemperature: 253"
    "\nAC powered: false\nlevel: 1\ntemperature: 7\n" none
    (by decide) (by decide) (by decide) (by decide)).2.2.2
  rw [h]
  decide

/-- C12: for every non-empty namespace, `NewAndroidCollector` returns a collector and a
`nil` error; the three descriptors are named `namespace_android_battery_charging`,
`namespace_android_battery_level` and `namespace_android_battery_temperature`, have no
label names, and their names are pairwise distinct; whatever `Update` pushes is the
charging, level and temperature value under exactly these descriptors, in this order (and
it pushes them whenever `GetStats` returns and the namespace is a valid metric name). -/
theorem NewAndroidCollector_descriptors (namespace_ : String) (logger : Logger)
    (hne : namespace_ ≠ "") :
    (NewAndroidCollector namespace_ logger).2 = none ∧
    ((NewAndroidCollector namespace_ logger).1.batteryChargingDesc.fqName
        = namespace_ ++ "_android_battery_charging" ∧
      (NewAndroidCollector namespace_ logger).1.batteryLevelDesc.fqName
        = namespace_ ++ "_android_battery_level" ∧
      (NewAndroidCollector namespace_ logger).1.batteryTempDesc.fqName
        = namespace_ ++ "_android_battery_temperature") ∧
    ((NewAndroidCollector namespace_ logger).1.batteryChargingDesc.variableLabels = [] ∧
      (NewAndroidCollector namespace_ logger).1.batteryLevelDesc.variableLabels = [] ∧
      (NewAndroidCollector namespace_ logger).1.batteryTempDesc.variableLabels = []) ∧
    ((NewAndroidCollector namespace_ logger).1.batteryChargingDesc.fqName
        ≠ (NewAndroidCollector namespace_ logger).1.batteryLevelDesc.fqName ∧
      (NewAndroidCollector namespace_ logger).1.batteryChargingDesc.fqName
        ≠ (NewAndroidCollector namespace_ logger).1.batteryTempDesc.fqName ∧
      (NewAndroidCollector namespace_ logger).1.batteryLevelDesc.fqName
        ≠ (NewAndroidCollector namespace_ logger).1.batteryTempDesc.fqName) ∧
    (∀ dumpsys ch,
      ((NewAndroidCollector namespace_ logger).1.Update dumpsys ch).ch = ch ∨
      ∃ charging level temp,
        (NewAndroidCollector namespace_ logger).1.GetStats dumpsys
          = .ok (charging, level, temp) ∧
        (NewAndroidCollector namespace_ logger).1.Update dumpsys ch = ⟨.ok none, ch ++
          [⟨(NewAndroidCollector namespace_ logger).1.batteryChargingDesc,
              .GaugeValue, charging, []⟩,
           ⟨(NewAndroidCollector namespace_ logger).1.batteryLevelDesc,
              .GaugeValue, level, []⟩,
           ⟨(NewAndroidCollector namespace_ logger).1.batteryTempDesc,
              .GaugeValue, temp, []⟩]⟩) ∧
    (IsValidMetricName namespace_ = true → ∀ dumpsys ch charging level temp,
      (NewAndroidCollector namespace_ logger).1.GetStats dumpsys
        = .ok (charging, level, temp) →
      (NewAndroidCollector namespace_ logger).1.Update dumpsys ch = ⟨.ok none, ch ++
        [⟨(NewAndroidCollector namespace_ logger).1.batteryChargingDesc,
            .GaugeValue, charging, []⟩,
         ⟨(NewAndroidCollector namespace_ logger).1.batteryLevelDesc,
            .GaugeValue, level, []⟩,
         ⟨(NewAndroidCollector namespace_ logger).1.batteryTempDesc,
            .GaugeValue, temp, []⟩]⟩) := by
  have n1 : (NewAndroidCollector namespace_ logger).1.batteryChargingDesc.fqName
      = namespace_ ++ "_android_battery_charging" :=
    fqName_eq namespace_ "battery_charging" hne (by decide)
  have n2 : (NewAndroidCollector namespace_ logger).1.batteryLevelDesc.fqName
      = namespace_ ++ "_android_battery_level" :=
    fqName_eq namespace_ "battery_level" hne (by decide)
  have n3 : (NewAndroidCollector namespace_ logger).1.batteryTempDesc.fqName
      = namespace_ ++ "_android_battery_temperature" :=
    fqName_eq namespace_ "battery_temperature" hne (by decide)
  obtain ⟨l1, l2, l3⟩ := desc_labels namespace_ logger
  obtain ⟨i1, i2, i3⟩ := desc_err_iff namespace_ logger
  refine ⟨rfl, ⟨n1, n2, n3⟩, ⟨l1, l2, l3⟩, ⟨?_, ?_, ?_⟩, ?_, ?_⟩
  · rw [n1, n2]
    exact append_ne_of_ne _ _ _ (by decide)
  · rw [n1, n3]
    exact append_ne_of_ne _ _ _ (by decide)
  · rw [n2, n3]
    exact append_ne_of_ne _ _ _ (by decide)
  · intro dumpsys ch
    cases hg : (NewAndroidCollector namespace_ logger).1.GetStats dumpsys with
    | error p =>
      left
      rw [Update_of_GetStats_error _ _ ch p hg]
    | ok v =>
      by_cases hv : IsValidMetricName.loop namespace_.data 0 = true
      · obtain ⟨v1, v2, v3⟩ := v
        right
        exact ⟨v1, v2, v3, rfl, Update_of_GetStats_ok _ _ ch _ _ _ hg
          (i1.mpr hv) (i2.mpr hv) (i3.mpr hv) l1 l2 l3⟩
      · left
        cases he : (NewAndroidCollector namespace_ logger).1.batteryChargingDesc.err with
        | none => exact absurd (i1.mp he) hv
        | some e => rw [Update_of_desc_error _ _ ch v e hg he]
  · intro hvalid dumpsys ch charging level temp hg
    have hv := IsValidMetricName_loop namespace_ hvalid
    exact Update_of_GetStats_ok _ _ ch _ _ _ hg (i1.mpr hv) (i2.mpr hv) (i3.mpr hv)
      l1 l2 l3

/-- C12, for the namespace `node`: the three names, and the samples pushed for the
end-to-end text. -/
theorem NewAndroidCollector_descriptors_example :
    ((NewAndroidCollector "node" ⟨0⟩).1.batteryChargingDesc.fqName
        = "node_android_battery_charging" ∧
      (NewAndroidCollector "node" ⟨0⟩).1.batteryLevelDesc.fqName
        = "node_android_battery_level" ∧
      (NewAndroidCollector "node" ⟨0⟩).1.batteryTempDesc.fqName
        = "node_android_battery_temperature") ∧
    ((NewAndroidCollector "node" ⟨0⟩).1.Update
        ⟨"AC powered: true\nlevel: 87\ntemperature: 253\n", none⟩ []).ch.map
          (fun m => (m.desc.fqName, m.value))
      = [("node_android_battery_charging", Float64.lit 1 1),
         ("node_android_battery_level", Float64.lit 87 1),
         ("node_android_battery_temperature", Float64.lit 253 10)] := by
  have h := NewAndroidCollector_descriptors "node" ⟨0⟩ (by decide)
  refine ⟨h.2.1, ?_⟩
  rw [h.2.2.2.2.2 (by decide) ⟨"AC powered: true\nlevel: 87\ntemperature: 253\n", none⟩ []
    (Float64.lit 1 1) (Float64.lit 87 1) (Float64.lit 253 10) (by decide)]
  decide

/-- C13: the error value of the command is ignored entirely.  For every captured text and
every error value returned with it, `GetStats` and `Update` give the same result as for
that text with a `nil` error. -/
theorem outcome_ignores_command_error (c : androidCollector) (text : String)
    (e : Option ExecError) (ch : List Metric) :
    c.GetStats ⟨text, e⟩ = c.GetStats ⟨text, none⟩ ∧
    c.Update ⟨text, e⟩ ch = c.Update ⟨text, none⟩ ch := by
  have hg : c.GetStats ⟨text, e⟩ = c.GetStats ⟨text, none⟩ := by
    unfold androidCollector.GetStats
    rfl
  refine ⟨hg, ?_⟩
  unfold androidCollector.Update
  rw [hg]

/-- C14: value ranges.  Whenever `GetStats` returns, the charging value is exactly `0.0`
or `1.0`, the two integers decoded from the level and temperature captures are not
negative, and the level and temperature values are not negative (`x >= 0` holds). -/
theorem GetStats_value_ranges (c : androidCollector) (dumpsys : CmdOutput)
    (charging level temp : Float64)
    (h : c.GetStats dumpsys = .ok (charging, level, temp)) :
    (charging = Float64.lit 0 1 ∨ charging = Float64.lit 1 1) ∧
    (∃ w2 cap2 w3 cap3,
      batteryLevelRegex.FindStringSubmatch dumpsys.out = [w2, cap2] ∧
      batteryTempRegex.FindStringSubmatch dumpsys.out = [w3, cap3] ∧
      0 ≤ (Atoi cap2).1 ∧ 0 ≤ (Atoi cap3).1) ∧
    level.nonneg = true ∧ temp.nonneg = true := by
  have hm : batteryChargingRegex.FindStringSubmatch dumpsys.out ≠ [] ∧
      batteryLevelRegex.FindStringSubmatch dumpsys.out ≠ [] ∧
      batteryTempRegex.FindStringSubmatch dumpsys.out ≠ [] := by
    by_contra hno
    have hor : batteryChargingRegex.FindStringSubmatch dumpsys.out = [] ∨
        batteryLevelRegex.FindStringSubmatch dumpsys.out = [] ∨
        batteryTempRegex.FindStringSubmatch dumpsys.out = [] := by
      by_contra hnone
      exact hno ⟨fun e => hnone (Or.inl e), fun e => hnone (Or.inr (Or.inl e)),
        fun e => hnone (Or.inr (Or.inr e))⟩
    rw [GetStats_panic c dumpsys hor] at h
    exact absurd h (by simp)
  obtain ⟨w1, c1, w2, c2, w3, c3, -, g2, g3, hg⟩ :=
    GetStats_of_match c dumpsys hm.1 hm.2.1 hm.2.2
  rw [hg] at h
  injection h with h
  injection h with h1 h
  injection h with h2 h3
  have a2 := Atoi_capture_nonneg batteryLevelRegex rfl dumpsys.out w2 c2 g2
  have a3 := Atoi_capture_nonneg batteryTempRegex rfl dumpsys.out w3 c3 g3
  refine ⟨?_, ⟨w2, c2, w3, c3, g2, g3, a2, a3⟩, ?_, ?_⟩
  · rw [← h1]
    by_cases hc : c1 = "true"
    · rw [if_pos hc]
      exact Or.inr rfl
    · rw [if_neg hc]
      exact Or.inl rfl
  · rw [← h2]
    exact ofInt_nonneg _ a2
  · rw [← h3]
    exact ofInt_div_ten_nonneg _ a3

/-- C14, on a text whose level overflows the integer range: the values stay in range. -/
theorem GetStats_value_ranges_example :
    (NewAndroidCollector "node" ⟨0⟩).1.GetStats
        ⟨"AC powered: off\nlevel: 99999999999999999999\ntemperature: 253\n", none⟩
      = .ok (Float64.lit 0 1, Float64.ofInt (2 ^ 63 - 1), Float64.lit 253 10) ∧
    (Float64.ofInt (2 ^ 63 - 1)).nonneg = true ∧
    (Float64.lit 253 10).nonneg = true :=
  ⟨by decide,
    (GetStats_value_ranges (NewAndroidCollector "node" ⟨0⟩).1
      ⟨"AC powered: off\nlevel: 99999999999999999999\ntemperature: 253\n", none⟩
      (Float64.lit 0 1) (Float64.ofInt (2 ^ 63 - 1)) (Float64.lit 253 10)
      (by decide)).2.2⟩

/-- C15, counterexample: for `level: 9223372036854775808` the written number is `2 ^ 63`,
greater than `2 ^ 63 - 1`, and the level that `GetStats` reports is `float64(2 ^ 63 - 1)`,
which is the float `2 ^ 63`: exactly the float of the value written in the text, not a
value other than it.  The same holds for the temperature. -/
theorem level_two_pow_63_reports_written_value :
    decimalValue "9223372036854775808".data = 2 ^ 63 ∧
    (NewAndroidCollector "node" ⟨0⟩).1.GetStats
        ⟨"AC powered: true\nlevel: 9223372036854775808\ntemperature: 253\n", none⟩
      = .ok (Float64.lit 1 1, Float64.ofInt 9223372036854775808, Float64.lit 253 10) ∧
    (NewAndroidCollector "node" ⟨0⟩).1.GetStats
        ⟨"AC powered: true\nlevel: 87\ntemperature: 9223372036854775808\n", none⟩
      = .ok (Float64.lit 1 1, Float64.lit 87 1,
          Float64.div (Float64.ofInt 9223372036854775808) (Float64.lit 10 1)) ∧
    Float64.ofInt (2 ^ 63 - 1) = Float64.ofInt 9223372036854775808 ∧
    (Float64.ofInt 9223372036854775808).toRat = some 9223372036854775808 := by
  refine ⟨by decide, by decide, by decide, by decide, ?_⟩
  have h : Float64.ofInt 9223372036854775808 = .finite false 4503599627370496 11 := by
    decide
  rw [h]
  simp only [Float64.toRat]
  norm_num

/-- C15, amended: silent saturation.  When all three expressions match, the integer
decoded from the level (respectively temperature) capture is the number written when that
number is at most `2 ^ 63 - 1` (leading zeros included), with no error; when it is
greater, `Atoi` reports a range error, which `GetStats` discards: the decoded integer is
`2 ^ 63 - 1`, not the number written, and `GetStats` returns the level
`float64(2 ^ 63 - 1)`, the float `2 ^ 63` (respectively the temperature
`float64(2 ^ 63 - 1) / 10`, the float `922337203685477632`), which is not zero. -/
theorem GetStats_saturates (c : androidCollector) (text : String)
    (err : Option ExecError) (w2 cap2 w3 cap3 : String)
    (hc : batteryChargingRegex.FindStringSubmatch text ≠ [])
    (hl : batteryLevelRegex.FindStringSubmatch text = [w2, cap2])
    (ht : batteryTempRegex.FindStringSubmatch text = [w3, cap3]) :
    (∃ charging, c.GetStats ⟨text, err⟩ = .ok (charging,
      Float64.ofInt (Atoi cap2).1,
      Float64.div (Float64.ofInt (Atoi cap3).1) (Float64.lit 10 1))) ∧
    (decimalValue cap2.data ≤ 2 ^ 63 - 1 →
      Atoi cap2 = ((decimalValue cap2.data : Int), none)) ∧
    (decimalValue cap3.data ≤ 2 ^ 63 - 1 →
      Atoi cap3 = ((decimalValue cap3.data : Int), none)) ∧
    (2 ^ 63 - 1 < decimalValue cap2.data →
      Atoi cap2 = (2 ^ 63 - 1, some ⟨"Atoi", cap2, .ErrRange⟩) ∧
      (Atoi cap2).1 ≠ (decimalValue cap2.data : Int) ∧
      ∃ charging temp, c.GetStats ⟨text, err⟩
        = .ok (charging, .finite false 4503599627370496 11, temp)) ∧
    (2 ^ 63 - 1 < decimalValue cap3.data →
      Atoi cap3 = (2 ^ 63 - 1, some ⟨"Atoi", cap3, .ErrRange⟩) ∧
      (Atoi cap3).1 ≠ (decimalValue cap3.data : Int) ∧
      ∃ charging level, c.GetStats ⟨text, err⟩
        = .ok (charging, level, .finite false 7205759403792794 7)) ∧
    (Float64.finite false 4503599627370496 11).toRat = some (2 ^ 63) ∧
    (Float64.finite false 7205759403792794 7).toRat = some 922337203685477632 ∧
    Float64.finite false 4503599627370496 11 ≠ Float64.lit 0 1 ∧
    Float64.finite false 7205759403792794 7 ≠ Float64.lit 0 1 := by
  obtain ⟨w1, c1, w2', c2, w3', c3, -, g2, g3, hg⟩ :=
    GetStats_of_match c ⟨text, err⟩ hc (by rw [hl]; simp) (by rw [ht]; simp)
  have e2 : c2 = cap2 := pair_snd_eq (g2.symm.trans hl)
  have e3 : c3 = cap3 := pair_snd_eq (g3.symm.trans ht)
  subst e2 e3
  obtain ⟨n2, d2⟩ := capture_is_digits batteryLevelRegex rfl text w2 c2 hl
  obtain ⟨n3, d3⟩ := capture_is_digits batteryTempRegex rfl text w3 c3 ht
  have a2 := Atoi_of_digits c2 n2 d2
  have a3 := Atoi_of_digits c3 n3 d3
  have hlevel : Float64.ofInt (2 ^ 63 - 1) = .finite false 4503599627370496 11 := by
    decide
  have htemp : Float64.div (Float64.ofInt (2 ^ 63 - 1)) (Float64.lit 10 1)
      = .finite false 7205759403792794 7 := by decide
  refine ⟨⟨_, hg⟩, ?_, ?_, ?_, ?_, ?_, ?_, by decide, by decide⟩
  · intro h
    have hlt : decimalValue c2.data < 2 ^ 63 := by omega
    rw [a2, if_pos hlt]
  · intro h
    have hlt : decimalValue c3.data < 2 ^ 63 := by omega
    rw [a3, if_pos hlt]
  · intro h
    have hge : ¬ decimalValue c2.data < 2 ^ 63 := by omega
    have hA : Atoi c2 = (2 ^ 63 - 1, some ⟨"Atoi", c2, .ErrRange⟩) := by
      rw [a2, if_neg hge]
    have hg' := hg
    rw [hA] at hg'
    simp only [hlevel] at hg'
    refine ⟨hA, ?_, _, _, hg'⟩
    rw [hA]
    show (2 ^ 63 - 1 : Int) ≠ (decimalValue c2.data : Int)
    omega
  · intro h
    have hge : ¬ decimalValue c3.data < 2 ^ 63 := by omega
    have hA : Atoi c3 = (2 ^ 63 - 1, some ⟨"Atoi", c3, .ErrRange⟩) := by
      rw [a3, if_neg hge]
    have hg' := hg
    rw [hA] at hg'
    simp only [htemp] at hg'
    refine ⟨hA, ?_, _, _, hg'⟩
    rw [hA]
    show (2 ^ 63 - 1 : Int) ≠ (decimalValue c3.data : Int)
    omega
  · simp only [Float64.toRat]
    norm_num
  · simp only [Float64.toRat]
    norm_num

/-- C15, amended, examples: `level: 99999999999999999999` and
`temperature: 99999999999999999999` decode to `2 ^ 63 - 1` with the range error discarded,
giving the level `2 ^ 63` and the temperature `922337203685477632`; `temperature: 00253`
(leading zeros) decodes to 253. -/
theorem GetStats_saturates_example :
    Atoi "99999999999999999999"
      = (2 ^ 63 - 1, some ⟨"Atoi", "99999999999999999999", .ErrRange⟩) ∧
    Atoi "00253" = (253, none) ∧
    (NewAndroidCollector "node" ⟨0⟩).1.GetStats
        ⟨"AC powered: true\nlevel: 99999999999999999999\ntemperature: 00253\n", none⟩
      = .ok (Float64.lit 1 1, .finite false 4503599627370496 11, Float64.lit 253 10) ∧
    (NewAndroidCollector "node" ⟨0⟩).1.GetStats
        ⟨"AC powered: true\nlevel: 87\ntemperature: 99999999999999999999\n", none⟩
      = .ok (Float64.lit 1 1, Float64.lit 87 1, .finite false 7205759403792794 7) := by
  have h := GetStats_saturates (NewAndroidCollector "node" ⟨0⟩).1
    "AC powered: true\nlevel: 99999999999999999999\ntemperature: 00253\n" none
    "level: 99999999999999999999" "99999999999999999999" "temperature: 00253" "00253"
    (by decide) (by decide) (by decide)
  exact ⟨(h.2.2.2.1 (by decide)).1, h.2.2.1 (by decide), by decide, by decide⟩

end Collector
